import Mathlib

/-!
# Verification of the student-management-system record layer

This file gives a shallow embedding of the core of the
`student_management_system` repository (the entity classes `Student`,
`Subject`, `Record`, and the `StudentManager` operations, plus the
text-file (de)serialization in `save_to_file` / `load_from_file`)
and proves the specification claims about it.

Modelling conventions:
* Python strings are modelled by `String` (logically a list of `Char`);
  a text file is modelled as its list of lines, each line a `List Char`
  (the trailing newline written by `f.write` and consumed by
  `readlines`/`strip` is implicit in the line structure).
* Python `int` is modelled by `Int`; Python `float` grades are modelled
  by exact rationals `ℚ` (the manager only stores and compares grades,
  so `ℚ` is a faithful superset model; `str`/`float` printing and
  parsing of grades is modelled as exact finite-decimal notation,
  matching Python's round-tripping `str`/`float` pair on such values).
* `None` becomes `Option.none`; in-place mutation of the record found by
  `get_record` (which is the first match in the list) becomes a
  functional update of the first matching list element.
* Each successful mutating operation calls `save_all`; the embedding
  counts those calls in the `saves` field of the manager state so that
  "no save is performed on failure" is expressible.
-/

/-! ## Basic character and number utilities -/

/-- Digit test on characters, as used for the characters produced by
Python's `str` on integers. -/
def isDigitCh (c : Char) : Bool := '0' ≤ c && c ≤ '9'

/-- Numeric value of a digit character. -/
def digitValCh (c : Char) : Nat := c.toNat - '0'.toNat

/-- Value of a digit string, most significant digit first
(the core of Python's `int(s)` on a plain digit string). -/
def natVal (l : List Char) : Nat := l.foldl (fun a c => a * 10 + digitValCh c) 0

/-- Fuelled digit printer: `natCharsFuel fuel n` is the list of decimal
digits of `n` (empty for `n = 0`), provided `fuel ≥ n`. Structural
recursion on the fuel keeps the definition kernel-reducible. -/
def natCharsFuel : Nat → Nat → List Char
  | 0, _ => []
  | _ + 1, 0 => []
  | fuel + 1, n + 1 => natCharsFuel fuel ((n + 1) / 10) ++ [Nat.digitChar ((n + 1) % 10)]

/-- Decimal digits of a positive natural number. -/
def natCharsPos (n : Nat) : List Char := natCharsFuel n n

/-- Python's `str` on a natural number. -/
def natChars (n : Nat) : List Char := if n = 0 then ['0'] else natCharsPos n

/-- Python's `str` on an `int`. -/
def intChars (i : Int) : List Char :=
  if i < 0 then '-' :: natChars i.natAbs else natChars i.toNat

/-- Python's `int(s)` on a stripped string: all-digit strings (with an
optional leading minus sign) parse, anything else raises (`none`).
Only the fragment of `int` exercised by the repository is modelled. -/
def parseNatChars (l : List Char) : Option Nat :=
  if l ≠ [] ∧ l.all isDigitCh then some (natVal l) else none

/-- Python's `int(s)` including a possible sign. -/
def parseIntChars (l : List Char) : Option Int :=
  match l with
  | [] => none
  | c :: cs =>
    if c = '-' then (parseNatChars cs).map (fun n => -(n : Int))
    else (parseNatChars (c :: cs)).map (fun n => (n : Int))

/-! ## `str.strip` and `str.split` -/

/-- Python's `str.strip()`: drop whitespace from both ends. -/
def stripChars (l : List Char) : List Char :=
  ((l.dropWhile Char.isWhitespace).reverse.dropWhile Char.isWhitespace).reverse

/-- Helper for `str.split(sep)`: `cur` is the reversed current field. -/
def splitChAux (sep : Char) : List Char → List Char → List (List Char)
  | [], cur => [cur.reverse]
  | c :: cs, cur =>
    if c = sep then cur.reverse :: splitChAux sep cs []
    else splitChAux sep cs (c :: cur)

/-- Python's `str.split(sep)` for a one-character separator: no empty
fields are collapsed, `"a||b".split('|') = ["a", "", "b"]`. -/
def splitCh (sep : Char) (l : List Char) : List (List Char) := splitChAux sep l []

/-! ## Lemmas about the utilities -/

theorem digitValCh_digitChar {d : Nat} (h : d < 10) :
    digitValCh (Nat.digitChar d) = d := by
  interval_cases d <;> decide

theorem isDigitCh_digitChar {d : Nat} (h : d < 10) :
    isDigitCh (Nat.digitChar d) = true := by
  interval_cases d <;> decide

theorem natVal_append (a b : List Char) :
    natVal (a ++ b) = natVal a * 10 ^ b.length + natVal b := by
  have key : ∀ (l : List Char) (x : Nat),
      l.foldl (fun a c => a * 10 + digitValCh c) x
        = x * 10 ^ l.length + l.foldl (fun a c => a * 10 + digitValCh c) 0 := by
    intro l
    induction l with
    | nil => intro x; simp
    | cons c cs ih =>
      intro x
      simp only [List.foldl_cons, List.length_cons]
      rw [ih (x * 10 + digitValCh c), ih (0 * 10 + digitValCh c)]
      ring
  rw [natVal, List.foldl_append, key]
  rfl

theorem natCharsFuel_congr :
    ∀ (f₁ f₂ n : Nat), n ≤ f₁ → n ≤ f₂ → natCharsFuel f₁ n = natCharsFuel f₂ n := by
  intro f₁
  induction f₁ with
  | zero =>
    intro f₂ n h₁ _
    interval_cases n
    cases f₂ <;> rfl
  | succ g ih =>
    intro f₂ n h₁ h₂
    cases n with
    | zero => cases f₂ <;> rfl
    | succ m =>
      cases f₂ with
      | zero => omega
      | succ h =>
        simp only [natCharsFuel]
        have hd : (m + 1) / 10 < m + 1 := Nat.div_lt_self (Nat.succ_pos m) (by norm_num)
        rw [ih h ((m + 1) / 10) (by omega) (by omega)]

theorem natCharsPos_unfold (n : Nat) (h : 0 < n) :
    natCharsPos n = natCharsPos (n / 10) ++ [Nat.digitChar (n % 10)] := by
  obtain ⟨m, rfl⟩ : ∃ m, n = m + 1 := ⟨n - 1, by omega⟩
  show natCharsFuel (m + 1) (m + 1) = _
  simp only [natCharsFuel]
  congr 1
  exact natCharsFuel_congr m ((m + 1) / 10) ((m + 1) / 10)
    (by have := Nat.div_lt_self (Nat.succ_pos m) (show 1 < 10 by norm_num); omega)
    (le_refl _)

theorem natVal_natCharsPos (n : Nat) : natVal (natCharsPos n) = n := by
  induction n using Nat.strong_induction_on with
  | _ n ih =>
    cases n with
    | zero => rfl
    | succ m =>
      rw [natCharsPos_unfold (m + 1) (Nat.succ_pos m), natVal_append]
      have hd : (m + 1) / 10 < m + 1 := Nat.div_lt_self (Nat.succ_pos m) (by norm_num)
      rw [ih _ hd]
      simp [natVal, digitValCh_digitChar (Nat.mod_lt (m + 1) (show 0 < 10 by norm_num))]
      omega

theorem natCharsPos_all_digits (n : Nat) : (natCharsPos n).all isDigitCh = true := by
  induction n using Nat.strong_induction_on with
  | _ n ih =>
    cases n with
    | zero => rfl
    | succ m =>
      rw [natCharsPos_unfold (m + 1) (Nat.succ_pos m)]
      have hd : (m + 1) / 10 < m + 1 := Nat.div_lt_self (Nat.succ_pos m) (by norm_num)
      simp only [List.all_append, ih _ hd, Bool.true_and, List.all_cons, List.all_nil,
        Bool.and_true]
      exact isDigitCh_digitChar (Nat.mod_lt (m + 1) (by norm_num))

theorem natCharsPos_ne_nil (n : Nat) (h : 0 < n) : natCharsPos n ≠ [] := by
  rw [natCharsPos_unfold n h]
  simp

theorem natChars_all_digits (n : Nat) : (natChars n).all isDigitCh = true := by
  rw [natChars]
  split
  · rfl
  · exact natCharsPos_all_digits n

theorem natChars_ne_nil (n : Nat) : natChars n ≠ [] := by
  rw [natChars]
  split
  · simp
  · exact natCharsPos_ne_nil n (by omega)

theorem natVal_natChars (n : Nat) : natVal (natChars n) = n := by
  rw [natChars]
  split
  · simp_all [natVal, digitValCh]
  · exact natVal_natCharsPos n

theorem parseNatChars_natChars (n : Nat) : parseNatChars (natChars n) = some n := by
  rw [parseNatChars, if_pos ⟨natChars_ne_nil n, natChars_all_digits n⟩, natVal_natChars]

theorem isDigitCh_ne_of_not (c x : Char) (hx : isDigitCh x = false)
    (h : isDigitCh c = true) : c ≠ x := by
  intro he
  rw [he, hx] at h
  exact Bool.false_ne_true h

theorem exists_head_digit {l : List Char} (hne : l ≠ []) (hall : l.all isDigitCh = true) :
    ∃ c cs, l = c :: cs ∧ isDigitCh c = true := by
  cases l with
  | nil => exact absurd rfl hne
  | cons c cs =>
    refine ⟨c, cs, rfl, ?_⟩
    simp only [List.all_cons, Bool.and_eq_true] at hall
    exact hall.1

theorem parseIntChars_intChars (i : Int) : parseIntChars (intChars i) = some i := by
  rw [intChars]
  split
  · rename_i hneg
    rw [parseIntChars, if_pos rfl, parseNatChars_natChars]
    show some (-(i.natAbs : Int)) = some i
    congr 1
    omega
  · rename_i hpos
    obtain ⟨c, cs, hl, hc⟩ := exists_head_digit (natChars_ne_nil i.toNat)
      (natChars_all_digits i.toNat)
    rw [hl, parseIntChars, if_neg (isDigitCh_ne_of_not c '-' (by decide) hc), ← hl,
      parseNatChars_natChars]
    show some ((i.toNat : Int)) = some i
    congr 1
    omega

theorem isDigitCh_not_ws {c : Char} (h : isDigitCh c = true) : c.isWhitespace = false := by
  revert h
  rw [Char.isWhitespace]
  by_cases h1 : c = ' '
  · subst h1; decide
  · by_cases h2 : c = '\t'
    · subst h2; decide
    · by_cases h3 : c = '\r'
      · subst h3; decide
      · by_cases h4 : c = '\n'
        · subst h4; decide
        · intro _
          simp [h1, h2, h3, h4]

theorem dropWhile_eq_self_of_head (p : Char → Bool) (l : List Char)
    (h : ∀ c, l.head? = some c → p c = false) : l.dropWhile p = l := by
  cases l with
  | nil => rfl
  | cons c cs =>
    rw [List.dropWhile_cons, if_neg]
    simp [h c rfl]

theorem stripChars_eq_self (l : List Char)
    (h1 : ∀ c, l.head? = some c → c.isWhitespace = false)
    (h2 : ∀ c, l.getLast? = some c → c.isWhitespace = false) : stripChars l = l := by
  rw [stripChars, dropWhile_eq_self_of_head _ _ h1, dropWhile_eq_self_of_head _ _
    (by intro c hc; exact h2 c ((List.head?_reverse l) ▸ hc)), List.reverse_reverse]

theorem splitChAux_no_sep (sep : Char) :
    ∀ (l cur : List Char), (∀ c ∈ l, c ≠ sep) →
      splitChAux sep l cur = [cur.reverse ++ l] := by
  intro l
  induction l with
  | nil => intro cur _; simp [splitChAux]
  | cons c cs ih =>
    intro cur h
    rw [splitChAux, if_neg (h c (List.mem_cons_self c cs)), ih]
    · simp
    · intro x hx
      exact h x (List.mem_cons_of_mem c hx)

theorem splitChAux_sep_append (sep : Char) :
    ∀ (xs ys cur : List Char), (∀ c ∈ xs, c ≠ sep) →
      splitChAux sep (xs ++ sep :: ys) cur
        = (cur.reverse ++ xs) :: splitChAux sep ys [] := by
  intro xs
  induction xs with
  | nil => intro ys cur _; simp [splitChAux]
  | cons c cs ih =>
    intro ys cur h
    rw [List.cons_append, splitChAux, if_neg (h c (List.mem_cons_self c cs)), ih]
    · simp
    · intro x hx
      exact h x (List.mem_cons_of_mem c hx)

theorem splitCh_two (sep : Char) (a b : List Char)
    (ha : ∀ c ∈ a, c ≠ sep) (hb : ∀ c ∈ b, c ≠ sep) :
    splitCh sep (a ++ sep :: b) = [a, b] := by
  rw [splitCh, splitChAux_sep_append sep a b [] ha, splitChAux_no_sep sep b [] hb]
  simp

theorem splitCh_four (sep : Char) (a b c d : List Char)
    (ha : ∀ x ∈ a, x ≠ sep) (hb : ∀ x ∈ b, x ≠ sep)
    (hc : ∀ x ∈ c, x ≠ sep) (hd : ∀ x ∈ d, x ≠ sep) :
    splitCh sep (a ++ sep :: (b ++ sep :: (c ++ sep :: d))) = [a, b, c, d] := by
  rw [splitCh, splitChAux_sep_append sep a _ [] ha,
    splitChAux_sep_append sep b _ [] hb, splitChAux_sep_append sep c _ [] hc,
    splitChAux_no_sep sep d [] hd]
  simp

theorem splitCh_five (sep : Char) (a b c d e : List Char)
    (ha : ∀ x ∈ a, x ≠ sep) (hb : ∀ x ∈ b, x ≠ sep) (hc : ∀ x ∈ c, x ≠ sep)
    (hd : ∀ x ∈ d, x ≠ sep) (he : ∀ x ∈ e, x ≠ sep) :
    splitCh sep (a ++ sep :: (b ++ sep :: (c ++ sep :: (d ++ sep :: e))))
      = [a, b, c, d, e] := by
  rw [splitCh, splitChAux_sep_append sep a _ [] ha,
    splitChAux_sep_append sep b _ [] hb, splitChAux_sep_append sep c _ [] hc,
    splitChAux_sep_append sep d _ [] hd, splitChAux_no_sep sep e [] he]
  simp

/-! ## The data model (`student.py`, `subject.py`, `record.py`) -/

/-- Embeds `Student.__init__` (models/student.py): `student_id`, `name`, `email`,
and optional `age`. -/
structure Student where
  student_id : String
  name : String
  email : String
  age : Option Int := none
deriving Repr, DecidableEq

/-- Embeds `Subject.__init__` (models/subject.py): `subject_id`, `name`, `code`,
and optional `credits`. -/
structure Subject where
  subject_id : String
  name : String
  code : String
  credits : Option Int := none
deriving Repr, DecidableEq

/-- Embeds `Record.__init__` (models/record.py): composite key
`(student_id, subject_id)` with optional `grade`, `attendance`,
`total_classes`. -/
structure Record where
  student_id : String
  subject_id : String
  grade : Option ℚ := none
  attendance : Option Int := none
  total_classes : Option Int := none
deriving Repr, DecidableEq

/-! ## The manager (`manager.py`) -/

/-- The in-memory state of `StudentManager`: the three entity lists plus
a counter of `save_all` calls (each successful mutating operation in
the source ends with `self.save_all()`; the counter makes "a save was
performed" visible in the state). -/
structure StudentManager where
  students : List Student
  subjects : List Subject
  records : List Record
  saves : Nat
deriving Repr, DecidableEq

/-- A manager with no data loaded, as produced by `StudentManager.__init__`
over an empty data directory. -/
def StudentManager.empty : StudentManager := ⟨[], [], [], 0⟩

/-- Embeds `StudentManager.get_student`: first student in the list with the
given id, scanning in order. -/
def StudentManager.get_student (m : StudentManager) (student_id : String) :
    Option Student :=
  m.students.find? (fun s => s.student_id == student_id)

/-- Embeds `StudentManager.get_subject`. -/
def StudentManager.get_subject (m : StudentManager) (subject_id : String) :
    Option Subject :=
  m.subjects.find? (fun s => s.subject_id == subject_id)

/-- The match predicate of `StudentManager.get_record`. -/
def recMatch (student_id subject_id : String) (r : Record) : Bool :=
  r.student_id == student_id && r.subject_id == subject_id

/-- Embeds `StudentManager.get_record`: first record for the pair. -/
def StudentManager.get_record (m : StudentManager)
    (student_id subject_id : String) : Option Record :=
  m.records.find? (recMatch student_id subject_id)

/-- Embeds `StudentManager.get_student_records`: all records of one student. -/
def StudentManager.get_student_records (m : StudentManager)
    (student_id : String) : List Record :=
  m.records.filter (fun r => r.student_id == student_id)

/-- Replace the first element satisfying `p` by its image under `f`:
the functional rendering of "look the object up with a linear scan and
mutate it in place". -/
def updateFirst (p : α → Bool) (f : α → α) : List α → List α
  | [] => []
  | x :: xs => if p x then f x :: xs else x :: updateFirst p f xs

/-- Embeds `StudentManager.add_student`: fails when the id is taken, otherwise
appends and saves. Returns the new state and the boolean result. -/
def StudentManager.add_student (m : StudentManager)
    (student_id name email : String) (age : Option Int) :
    StudentManager × Bool :=
  match m.get_student student_id with
  | some _ => (m, false)
  | none =>
    ({ m with
        students := m.students ++ [⟨student_id, name, email, age⟩]
        saves := m.saves + 1 }, true)

/-- Embeds `StudentManager.add_subject`. -/
def StudentManager.add_subject (m : StudentManager)
    (subject_id name code : String) (credits : Option Int) :
    StudentManager × Bool :=
  match m.get_subject subject_id with
  | some _ => (m, false)
  | none =>
    ({ m with
        subjects := m.subjects ++ [⟨subject_id, name, code, credits⟩]
        saves := m.saves + 1 }, true)

/-- Embeds `StudentManager.enroll_student`: requires both entities to exist and
the pair to be un-enrolled, then appends a bare record. -/
def StudentManager.enroll_student (m : StudentManager)
    (student_id subject_id : String) : StudentManager × Bool :=
  if (m.get_student student_id).isNone then (m, false)
  else if (m.get_subject subject_id).isNone then (m, false)
  else if (m.get_record student_id subject_id).isSome then (m, false)
  else
    ({ m with
        records := m.records ++ [⟨student_id, subject_id, none, none, none⟩]
        saves := m.saves + 1 }, true)

/-- Embeds `StudentManager.add_grade`: range-checks the grade; updates the
existing record's grade in place, or creates a record carrying only the
grade when both entities exist. -/
def StudentManager.add_grade (m : StudentManager)
    (student_id subject_id : String) (grade : ℚ) : StudentManager × Bool :=
  if grade < 0 ∨ grade > 100 then (m, false)
  else
    match m.get_record student_id subject_id with
    | none =>
      if (m.get_student student_id).isNone ∨ (m.get_subject subject_id).isNone then
        (m, false)
      else
        ({ m with
            records := m.records ++ [⟨student_id, subject_id, some grade, none, none⟩]
            saves := m.saves + 1 }, true)
    | some _ =>
      ({ m with
          records := updateFirst (recMatch student_id subject_id)
            (fun r => { r with grade := some grade }) m.records
          saves := m.saves + 1 }, true)

/-- The body of `StudentManager.mark_attendance` after the record has
been obtained (lines 195-213 of manager.py), as a transformation of the
targeted record:
1. an explicitly supplied `total_classes` is stored;
2. a still-unset `total_classes` defaults to `1`;
3. `attendance` is incremented when `attended` (initialized to `1` when
   unset) and initialized to `0` when not attended and unset;
4. an explicit `total_classes` is stored again, otherwise
   `total_classes := max(total_classes, attendance)` (both fields are
   necessarily set at this point; the unreachable unset case leaves the
   record unchanged, where Python's `max` would raise). -/
def attendanceUpdate (attended : Bool) (total_classes : Option Int)
    (r : Record) : Record :=
  let r1 := match total_classes with
    | some t => { r with total_classes := some t }
    | none => r
  let r2 := if r1.total_classes = none then { r1 with total_classes := some 1 } else r1
  let r3 := if attended then
      match r2.attendance with
      | none => { r2 with attendance := some 1 }
      | some a => { r2 with attendance := some (a + 1) }
    else
      match r2.attendance with
      | none => { r2 with attendance := some 0 }
      | some _ => r2
  match total_classes with
  | some t => { r3 with total_classes := some t }
  | none =>
    match r3.total_classes, r3.attendance with
    | some t, some a => { r3 with total_classes := some (max t a) }
    | _, _ => r3

/-- Embeds `StudentManager.mark_attendance`: uses the existing record for the
pair (the first match, mutated in place) or, when both entities exist,
a freshly appended bare record; then applies the update policy. -/
def StudentManager.mark_attendance (m : StudentManager)
    (student_id subject_id : String) (attended : Bool)
    (total_classes : Option Int) : StudentManager × Bool :=
  match m.get_record student_id subject_id with
  | none =>
    if (m.get_student student_id).isNone ∨ (m.get_subject subject_id).isNone then
      (m, false)
    else
      ({ m with
          records := m.records ++
            [attendanceUpdate attended total_classes ⟨student_id, subject_id, none, none, none⟩]
          saves := m.saves + 1 }, true)
  | some _ =>
    ({ m with
        records := updateFirst (recMatch student_id subject_id)
          (attendanceUpdate attended total_classes) m.records
        saves := m.saves + 1 }, true)

/-- One entry of the `records` list in a student report: the record and
the (possibly failed) subject lookup. -/
structure ReportEntry where
  subject : Option Subject
  record : Record
deriving Repr, DecidableEq

/-- The `dict` returned by `StudentManager.get_student_report`. -/
structure Report where
  student : Student
  records : List ReportEntry
deriving Repr, DecidableEq

/-- Embeds `StudentManager.get_student_report`: `none` when the student is
missing; otherwise the student plus one entry per record of theirs. -/
def StudentManager.get_student_report (m : StudentManager)
    (student_id : String) : Option Report :=
  match m.get_student student_id with
  | none => none
  | some s =>
    some { student := s,
           records := (m.get_student_records student_id).map
             (fun r => { subject := m.get_subject r.subject_id, record := r }) }

/-! ## Call sequences against the manager -/

/-- One call of the mutating public API of `StudentManager`. -/
inductive ApiCall where
  | addStudent (student_id name email : String) (age : Option Int)
  | addSubject (subject_id name code : String) (credits : Option Int)
  | enroll (student_id subject_id : String)
  | addGrade (student_id subject_id : String) (grade : ℚ)
  | markAttendance (student_id subject_id : String) (attended : Bool)
      (total_classes : Option Int)
deriving Repr, DecidableEq

/-- Execute one call, returning the new state and the boolean result. -/
def stepAction (m : StudentManager) : ApiCall → StudentManager × Bool
  | .addStudent sid n e a => m.add_student sid n e a
  | .addSubject sid n c cr => m.add_subject sid n c cr
  | .enroll sid subid => m.enroll_student sid subid
  | .addGrade sid subid g => m.add_grade sid subid g
  | .markAttendance sid subid att tc => m.mark_attendance sid subid att tc

/-- Execute a sequence of calls from a given state; the boolean is `true`
exactly when every call in the sequence returned `True`. -/
def runActionsFrom (m : StudentManager) : List ApiCall → StudentManager × Bool
  | [] => (m, true)
  | a :: rest =>
    let p := stepAction m a
    let q := runActionsFrom p.1 rest
    (q.1, p.2 && q.2)

/-- Execute a sequence of calls starting from the empty state. -/
def runActions (acts : List ApiCall) : StudentManager × Bool :=
  runActionsFrom StudentManager.empty acts

/-- The state invariant of §3 of the specification: unique student ids,
unique subject ids, at most one record per `(student_id, subject_id)`
pair, and every present grade within `[0, 100]`. -/
def managerInvariant (m : StudentManager) : Prop :=
  m.students.Pairwise (fun a b => a.student_id ≠ b.student_id) ∧
  m.subjects.Pairwise (fun a b => a.subject_id ≠ b.subject_id) ∧
  m.records.Pairwise (fun a b =>
    a.student_id ≠ b.student_id ∨ a.subject_id ≠ b.subject_id) ∧
  ∀ r ∈ m.records, ∀ g : ℚ, r.grade = some g → 0 ≤ g ∧ g ≤ 100

/-! ## Text-file serialization

A file is modelled as its list of lines, each line a `List Char`
(`f.write(line + "\n")` on the way out, `readlines` plus `strip` on the
way in). -/

/-- A falsy optional `int` serializes to the empty string:
`str(x) if x else ''` (used for `Student.age` and `Subject.credits`,
so the value `0` also serializes to the empty string). -/
def optIntTruthy (x : Option Int) : List Char :=
  match x with
  | none => []
  | some v => if v = 0 then [] else intChars v

/-- A `None`-tested optional `int` serializes to the empty string only
when absent: `str(x) if x is not None else ''` (used for
`Record.attendance` and `Record.total_classes`). -/
def optIntByNone (x : Option Int) : List Char :=
  match x with
  | none => []
  | some v => intChars v

/-- The line written for one student by `Student.save_to_file`:
`f"{student.student_id}|{student.name}|{student.email}|{age_str}"`. -/
def studentLine (s : Student) : List Char :=
  s.student_id.data ++ '|' :: (s.name.data ++ '|' :: (s.email.data ++ '|' ::
    optIntTruthy s.age))

/-- The header comment line of `students.txt`. -/
def studentHeader : List Char := "# Student ID | Name | Email | Age".data

/-- Embeds `Student.save_to_file`: header line then one line per student. -/
def studentsFileLines (students : List Student) : List (List Char) :=
  studentHeader :: students.map studentLine

/-- The line written for one subject by `Subject.save_to_file`: note the
column order `subject_id|code|name|credits`. -/
def subjectLine (s : Subject) : List Char :=
  s.subject_id.data ++ '|' :: (s.code.data ++ '|' :: (s.name.data ++ '|' ::
    optIntTruthy s.credits))

/-- The header comment line of `subjects.txt`. -/
def subjectHeader : List Char := "# Subject ID | Code | Name | Credits".data

/-- Embeds `Subject.save_to_file`. -/
def subjectsFileLines (subjects : List Subject) : List (List Char) :=
  subjectHeader :: subjects.map subjectLine

/-! ## Decimal printing and parsing of grades

`Record.save_to_file` writes `str(record.grade)` for a Python float and
the loader reads it back with `float(...)`; Python guarantees that this
pair round-trips exactly. Grades are modelled as exact rationals, with
`str`/`float` modelled as exact finite-decimal notation. -/

/-- The number of decimal places used to print `q`: the least `k` with
`q * 10^k` integral (such a `k ≤ q.den` exists exactly when the decimal
expansion of `q` terminates; otherwise `0` is returned and the printed
form is not exact — Python floats always have terminating decimals). -/
def decExp (q : ℚ) : Nat :=
  match (List.range (q.den + 1)).find? (fun k => (q * 10 ^ k).den == 1) with
  | some k => k
  | none => 0

/-- True when `q` has a terminating decimal expansion (true of every Python
float). -/
def finiteDecB (q : ℚ) : Bool :=
  ((if q < 0 then -q else q) * 10 ^ decExp (if q < 0 then -q else q)).den == 1

/-- Left-pad a digit string with zeros to length at least `k`. -/
def padLeftZeros (k : Nat) (l : List Char) : List Char :=
  List.replicate (k - l.length) '0' ++ l

/-- Decimal notation of a nonnegative rational, in the shape produced by
Python's `str` on a float: at least one digit on each side of the
point (`0.5`, `85.5`, `100.0`). -/
def ratCharsPos (q : ℚ) : List Char :=
  let k := decExp q
  let ds := padLeftZeros (k + 1) (natChars (q * 10 ^ k).num.toNat)
  if k = 0 then ds ++ ['.', '0']
  else ds.take (ds.length - k) ++ '.' :: ds.drop (ds.length - k)

/-- Python's `str` on a float value, modelled on exact rationals. -/
def ratChars (q : ℚ) : List Char :=
  if q < 0 then '-' :: ratCharsPos (-q) else ratCharsPos q

/-- Python's `float(s)` on an unsigned plain decimal string:
`"5"`, `"5.5"`, `"5."` and `".5"` all parse. Only the fragment of
`float` exercised by the round-trip is modelled. -/
def parseRatPosChars (l : List Char) : Option ℚ :=
  match splitCh '.' l with
  | [ds] => if ds ≠ [] ∧ ds.all isDigitCh then some ((natVal ds : ℚ)) else none
  | [ip, fp] =>
    if (ip ≠ [] ∨ fp ≠ []) ∧ ip.all isDigitCh ∧ fp.all isDigitCh then
      some ((natVal ip : ℚ) + (natVal fp : ℚ) / 10 ^ fp.length)
    else none
  | _ => none

/-- Python's `float(s)` including a possible sign. -/
def parseRatChars (l : List Char) : Option ℚ :=
  match l with
  | [] => none
  | c :: cs =>
    if c = '-' then (parseRatPosChars cs).map (fun q => -q)
    else parseRatPosChars (c :: cs)

/-- The grade column: `str(record.grade) if record.grade is not None
else ''` — tested against `None`, so a grade of `0` is written out. -/
def gradeField (g : Option ℚ) : List Char :=
  match g with
  | none => []
  | some q => ratChars q

/-- The line written for one record by `Record.save_to_file`:
`student_id|subject_id|grade|attendance|total_classes`. -/
def recordLine (r : Record) : List Char :=
  r.student_id.data ++ '|' :: (r.subject_id.data ++ '|' :: (gradeField r.grade ++ '|' ::
    (optIntByNone r.attendance ++ '|' :: optIntByNone r.total_classes)))

/-- The header comment line of `records.txt`. -/
def recordHeader : List Char :=
  "# Student ID | Subject ID | Grade | Attendance | Total Classes".data

/-- Embeds `Record.save_to_file`. -/
def recordsFileLines (records : List Record) : List (List Char) :=
  recordHeader :: records.map recordLine

/-! ## The loaders (`load_from_file`)

Each loader strips a line, skips it when blank or a `#` comment, splits
on `|`, requires the minimum column count, and parses the numeric
columns, where a parse failure (a `ValueError` from `int`/`float`)
aborts the whole load at the file-level `except`, yielding the records
accumulated so far. -/

/-- An optional trailing numeric column:
`parse(parts[i].strip()) if len(parts) > i and parts[i].strip() else None`.
The outer `none` is the `ValueError` case that aborts the file load. -/
def optNumField (parse : List Char → Option α) (p : Option (List Char)) :
    Option (Option α) :=
  match p with
  | none => some none
  | some s =>
    let t := stripChars s
    if t = [] then some none
    else
      match parse t with
      | none => none
      | some v => some (some v)

/-- The loop of `Student.load_from_file` over the lines of the file,
with `acc` holding the students parsed so far (reversed). -/
def loadStudentsAux : List (List Char) → List Student → List Student
  | [], acc => acc.reverse
  | ln :: rest, acc =>
    let l := stripChars ln
    if l = [] then loadStudentsAux rest acc
    else if l.head? = some '#' then loadStudentsAux rest acc
    else
      match splitCh '|' l with
      | p0 :: p1 :: p2 :: ps =>
        match optNumField parseIntChars ps.head? with
        | none => acc.reverse
        | some age =>
          loadStudentsAux rest
            (⟨String.mk (stripChars p0), String.mk (stripChars p1),
              String.mk (stripChars p2), age⟩ :: acc)
      | _ => loadStudentsAux rest acc

/-- Embeds `Student.load_from_file` on the lines of an existing file. -/
def loadStudents (file : List (List Char)) : List Student :=
  loadStudentsAux file []

/-- The loop of `Subject.load_from_file`. The source reads
`code = parts[1]` and `name = parts[2]` and then calls
`Subject(subject_id, code, name, credits)` — but the constructor
signature is `(subject_id, name, code, credits)`, so the file's *code*
column lands in the `name` field and the file's *name* column lands in
the `code` field. -/
def loadSubjectsAux : List (List Char) → List Subject → List Subject
  | [], acc => acc.reverse
  | ln :: rest, acc =>
    let l := stripChars ln
    if l = [] then loadSubjectsAux rest acc
    else if l.head? = some '#' then loadSubjectsAux rest acc
    else
      match splitCh '|' l with
      | p0 :: p1 :: p2 :: ps =>
        match optNumField parseIntChars ps.head? with
        | none => acc.reverse
        | some credits =>
          loadSubjectsAux rest
            (⟨String.mk (stripChars p0), String.mk (stripChars p1),
              String.mk (stripChars p2), credits⟩ :: acc)
      | _ => loadSubjectsAux rest acc

/-- Embeds `Subject.load_from_file` on the lines of an existing file. -/
def loadSubjects (file : List (List Char)) : List Subject :=
  loadSubjectsAux file []

/-- The loop of `Record.load_from_file`: at least two columns required;
grade, attendance and total_classes parsed in that order, any
`ValueError` aborting the load. -/
def loadRecordsAux : List (List Char) → List Record → List Record
  | [], acc => acc.reverse
  | ln :: rest, acc =>
    let l := stripChars ln
    if l = [] then loadRecordsAux rest acc
    else if l.head? = some '#' then loadRecordsAux rest acc
    else
      match splitCh '|' l with
      | p0 :: p1 :: ps =>
        match optNumField parseRatChars ps.head? with
        | none => acc.reverse
        | some grade =>
          match optNumField parseIntChars (ps.drop 1).head? with
          | none => acc.reverse
          | some att =>
            match optNumField parseIntChars (ps.drop 2).head? with
            | none => acc.reverse
            | some tot =>
              loadRecordsAux rest
                (⟨String.mk (stripChars p0), String.mk (stripChars p1),
                  grade, att, tot⟩ :: acc)
      | _ => loadRecordsAux rest acc

/-- Embeds `Record.load_from_file` on the lines of an existing file. -/
def loadRecords (file : List (List Char)) : List Record :=
  loadRecordsAux file []

/-! ## Lemmas about the manager -/

theorem updateFirst_sub {p : α → Bool} {f : α → α} :
    ∀ {l : List α} {y : α}, y ∈ updateFirst p f l →
      y ∈ l ∨ ∃ z ∈ l, p z = true ∧ y = f z := by
  intro l
  induction l with
  | nil => intro y h; exact absurd h (by simp [updateFirst])
  | cons x xs ih =>
    intro y h
    rw [updateFirst] at h
    split at h
    · rename_i hx
      rcases List.mem_cons.mp h with h | h
      · exact Or.inr ⟨x, List.mem_cons_self x xs, hx, h⟩
      · exact Or.inl (List.mem_cons_of_mem x h)
    · rcases List.mem_cons.mp h with h | h
      · exact Or.inl (h ▸ List.mem_cons_self x xs)
      · rcases ih h with h | ⟨z, hz, hpz, hy⟩
        · exact Or.inl (List.mem_cons_of_mem x h)
        · exact Or.inr ⟨z, List.mem_cons_of_mem x hz, hpz, hy⟩

theorem pairwise_updateFirst {R : α → α → Prop} {p : α → Bool} {f : α → α}
    (hf1 : ∀ x y, R x y → R (f x) y) (hf2 : ∀ x y, R x y → R x (f y)) :
    ∀ {l : List α}, l.Pairwise R → (updateFirst p f l).Pairwise R := by
  intro l
  induction l with
  | nil => intro _; exact List.Pairwise.nil
  | cons x xs ih =>
    intro h
    rcases List.pairwise_cons.mp h with ⟨hx, hxs⟩
    rw [updateFirst]
    split
    · exact List.pairwise_cons.mpr ⟨fun y hy => hf1 x y (hx y hy), hxs⟩
    · refine List.pairwise_cons.mpr ⟨?_, ih hxs⟩
      intro y hy
      rcases updateFirst_sub hy with hy | ⟨z, hz, _, rfl⟩
      · exact hx y hy
      · exact hf2 x z (hx z hz)

theorem find?_updateFirst {p : α → Bool} {f : α → α}
    (hf : ∀ x, p x = true → p (f x) = true) :
    ∀ (l : List α), (updateFirst p f l).find? p = (l.find? p).map f := by
  intro l
  induction l with
  | nil => rfl
  | cons x xs ih =>
    rw [updateFirst]
    split
    · rename_i hx
      rw [List.find?_cons_of_pos _ (hf x hx), List.find?_cons_of_pos _ hx]
      rfl
    · rename_i hx
      rw [List.find?_cons_of_neg _ (by simpa using hx),
        List.find?_cons_of_neg _ (by simpa using hx), ih]

/-- The four-step update policy of `mark_attendance` exactly as §4.2 of
the specification states it: (1)-(2) an explicit `total_classes` is
stored, a still-unset one defaults to 1; (3) attendance is incremented
when attended (initialized to 1 when unset) and initialized to 0 when
not attended and unset, otherwise left unchanged; (4) an explicit
`total_classes` wins as the final value, otherwise `total_classes` is
raised to `max(total_classes, attendance)`. -/
def claimPolicy (attended : Bool) (tc : Option Int) (r : Record) : Record :=
  let t2 : Int := match tc with
    | some t => t
    | none => match r.total_classes with
      | some t => t
      | none => 1
  let a3 : Int := match r.attendance with
    | some a => if attended then a + 1 else a
    | none => if attended then 1 else 0
  let t4 : Int := match tc with
    | some t => t
    | none => max t2 a3
  { r with attendance := some a3, total_classes := some t4 }

theorem attendanceUpdate_eq_claimPolicy (attended : Bool) (tc : Option Int)
    (r : Record) : attendanceUpdate attended tc r = claimPolicy attended tc r := by
  obtain ⟨sid, subid, g, a, t⟩ := r
  cases tc <;> cases a <;> cases t <;> cases attended <;> rfl

theorem claimPolicy_student_id (attended : Bool) (tc : Option Int) (r : Record) :
    (claimPolicy attended tc r).student_id = r.student_id := rfl

theorem claimPolicy_subject_id (attended : Bool) (tc : Option Int) (r : Record) :
    (claimPolicy attended tc r).subject_id = r.subject_id := rfl

theorem claimPolicy_grade (attended : Bool) (tc : Option Int) (r : Record) :
    (claimPolicy attended tc r).grade = r.grade := rfl

theorem recMatch_false_iff {sid subid : String} {r : Record} :
    recMatch sid subid r = false ↔ (r.student_id ≠ sid ∨ r.subject_id ≠ subid) := by
  constructor
  · intro h
    by_contra hc
    push_neg at hc
    rw [recMatch, hc.1, hc.2] at h
    simp at h
  · intro h
    rcases h with h | h <;> simp [recMatch, h]

theorem get_student_none {m : StudentManager} {sid : String}
    (h : m.get_student sid = none) : ∀ s ∈ m.students, s.student_id ≠ sid := by
  intro s hs
  have := List.find?_eq_none.mp h s hs
  simpa using this

theorem get_subject_none {m : StudentManager} {subid : String}
    (h : m.get_subject subid = none) : ∀ s ∈ m.subjects, s.subject_id ≠ subid := by
  intro s hs
  have := List.find?_eq_none.mp h s hs
  simpa using this

theorem get_record_none {m : StudentManager} {sid subid : String}
    (h : m.get_record sid subid = none) :
    ∀ r ∈ m.records, r.student_id ≠ sid ∨ r.subject_id ≠ subid := by
  intro r hr
  have := List.find?_eq_none.mp h r hr
  exact recMatch_false_iff.mp (by simpa using this)

theorem managerInvariant_add_student (m : StudentManager) (hm : managerInvariant m)
    (sid n e : String) (a : Option Int) :
    managerInvariant (m.add_student sid n e a).1 := by
  obtain ⟨h1, h2, h3, h4⟩ := hm
  rw [StudentManager.add_student]
  cases hs : m.get_student sid with
  | some s => exact ⟨h1, h2, h3, h4⟩
  | none =>
    refine ⟨?_, h2, h3, h4⟩
    rw [List.pairwise_append]
    refine ⟨h1, List.pairwise_singleton _ _, ?_⟩
    intro x hx y hy
    simp only [List.mem_singleton] at hy
    subst hy
    exact get_student_none hs x hx

theorem managerInvariant_add_subject (m : StudentManager) (hm : managerInvariant m)
    (subid n c : String) (cr : Option Int) :
    managerInvariant (m.add_subject subid n c cr).1 := by
  obtain ⟨h1, h2, h3, h4⟩ := hm
  rw [StudentManager.add_subject]
  cases hs : m.get_subject subid with
  | some s => exact ⟨h1, h2, h3, h4⟩
  | none =>
    refine ⟨h1, ?_, h3, h4⟩
    rw [List.pairwise_append]
    refine ⟨h2, List.pairwise_singleton _ _, ?_⟩
    intro x hx y hy
    simp only [List.mem_singleton] at hy
    subst hy
    exact get_subject_none hs x hx

theorem managerInvariant_enroll (m : StudentManager) (hm : managerInvariant m)
    (sid subid : String) : managerInvariant (m.enroll_student sid subid).1 := by
  obtain ⟨h1, h2, h3, h4⟩ := hm
  rw [StudentManager.enroll_student]
  split
  · exact ⟨h1, h2, h3, h4⟩
  split
  · exact ⟨h1, h2, h3, h4⟩
  split
  · exact ⟨h1, h2, h3, h4⟩
  rename_i hrec
  have hnone : m.get_record sid subid = none := by
    simpa [Option.not_isSome_iff_eq_none] using hrec
  refine ⟨h1, h2, ?_, ?_⟩
  · rw [List.pairwise_append]
    refine ⟨h3, List.pairwise_singleton _ _, ?_⟩
    intro x hx y hy
    simp only [List.mem_singleton] at hy
    subst hy
    exact get_record_none hnone x hx
  · intro r hr g hg
    rcases List.mem_append.mp hr with hr | hr
    · exact h4 r hr g hg
    · simp only [List.mem_singleton] at hr
      subst hr
      exact absurd hg (by simp)

theorem managerInvariant_add_grade (m : StudentManager) (hm : managerInvariant m)
    (sid subid : String) (g : ℚ) : managerInvariant (m.add_grade sid subid g).1 := by
  obtain ⟨h1, h2, h3, h4⟩ := hm
  rcases hr : m.get_record sid subid with _ | r
  · simp only [StudentManager.add_grade, hr]
    split
    · exact ⟨h1, h2, h3, h4⟩
    rename_i hrange
    push_neg at hrange
    split
    · exact ⟨h1, h2, h3, h4⟩
    refine ⟨h1, h2, ?_, ?_⟩
    · rw [List.pairwise_append]
      refine ⟨h3, List.pairwise_singleton _ _, ?_⟩
      intro x hx y hy
      simp only [List.mem_singleton] at hy
      subst hy
      exact get_record_none hr x hx
    · intro r' hr' g' hg'
      rcases List.mem_append.mp hr' with hr' | hr'
      · exact h4 r' hr' g' hg'
      · simp only [List.mem_singleton] at hr'
        subst hr'
        simp only [Option.some.injEq] at hg'
        subst hg'
        exact hrange
  · simp only [StudentManager.add_grade, hr]
    split
    · exact ⟨h1, h2, h3, h4⟩
    rename_i hrange
    push_neg at hrange
    refine ⟨h1, h2, ?_, ?_⟩
    · refine pairwise_updateFirst ?_ ?_ h3
      · intro x y hxy
        exact hxy
      · intro x y hxy
        exact hxy
    · intro r' hr' g' hg'
      rcases updateFirst_sub hr' with h | ⟨z, hz, _, rfl⟩
      · exact h4 r' h g' hg'
      · simp only [Option.some.injEq] at hg'
        subst hg'
        exact hrange

theorem managerInvariant_mark_attendance (m : StudentManager) (hm : managerInvariant m)
    (sid subid : String) (att : Bool) (tc : Option Int) :
    managerInvariant (m.mark_attendance sid subid att tc).1 := by
  obtain ⟨h1, h2, h3, h4⟩ := hm
  rcases hr : m.get_record sid subid with _ | r
  · simp only [StudentManager.mark_attendance, hr]
    split
    · exact ⟨h1, h2, h3, h4⟩
    refine ⟨h1, h2, ?_, ?_⟩
    · rw [List.pairwise_append]
      refine ⟨h3, List.pairwise_singleton _ _, ?_⟩
      intro x hx y hy
      simp only [List.mem_singleton] at hy
      subst hy
      rw [attendanceUpdate_eq_claimPolicy]
      exact get_record_none hr x hx
    · intro r' hr' g' hg'
      rcases List.mem_append.mp hr' with hr' | hr'
      · exact h4 r' hr' g' hg'
      · simp only [List.mem_singleton] at hr'
        subst hr'
        rw [attendanceUpdate_eq_claimPolicy, claimPolicy_grade] at hg'
        exact absurd hg' (by simp)
  · simp only [StudentManager.mark_attendance, hr]
    refine ⟨h1, h2, ?_, ?_⟩
    · refine pairwise_updateFirst ?_ ?_ h3
      · intro x y hxy
        rw [attendanceUpdate_eq_claimPolicy]
        exact hxy
      · intro x y hxy
        rw [attendanceUpdate_eq_claimPolicy]
        exact hxy
    · intro r' hr' g' hg'
      rcases updateFirst_sub hr' with h | ⟨z, hz, _, rfl⟩
      · exact h4 r' h g' hg'
      · rw [attendanceUpdate_eq_claimPolicy, claimPolicy_grade] at hg'
        exact h4 z hz g' hg'

theorem managerInvariant_stepAction (m : StudentManager) (hm : managerInvariant m)
    (a : ApiCall) : managerInvariant (stepAction m a).1 := by
  cases a with
  | addStudent sid n e ag => exact managerInvariant_add_student m hm sid n e ag
  | addSubject sid n c cr => exact managerInvariant_add_subject m hm sid n c cr
  | enroll sid subid => exact managerInvariant_enroll m hm sid subid
  | addGrade sid subid g => exact managerInvariant_add_grade m hm sid subid g
  | markAttendance sid subid att tc =>
    exact managerInvariant_mark_attendance m hm sid subid att tc

theorem managerInvariant_runActionsFrom :
    ∀ (acts : List ApiCall) (m : StudentManager), managerInvariant m →
      managerInvariant (runActionsFrom m acts).1 := by
  intro acts
  induction acts with
  | nil => intro m hm; exact hm
  | cons a rest ih =>
    intro m hm
    exact ih (stepAction m a).1 (managerInvariant_stepAction m hm a)

theorem managerInvariant_empty : managerInvariant StudentManager.empty := by
  refine ⟨List.Pairwise.nil, List.Pairwise.nil, List.Pairwise.nil, ?_⟩
  intro r hr
  exact absurd hr (List.not_mem_nil r)

theorem attendanceUpdate_funext (attended : Bool) (tc : Option Int) :
    attendanceUpdate attended tc = claimPolicy attended tc :=
  funext (attendanceUpdate_eq_claimPolicy attended tc)

theorem find?_append_none {p : α → Bool} :
    ∀ {l₁ : List α}, l₁.find? p = none → ∀ (l₂ : List α),
      (l₁ ++ l₂).find? p = l₂.find? p := by
  intro l₁
  induction l₁ with
  | nil => intro _ l₂; rfl
  | cons x xs ih =>
    intro h l₂
    have hx : p x = false := by
      have := List.find?_eq_none.mp h x (List.mem_cons_self x xs)
      simpa using this
    have hxs : xs.find? p = none := by
      rw [List.find?_eq_none]
      intro y hy
      exact List.find?_eq_none.mp h y (List.mem_cons_of_mem x hy)
    rw [List.cons_append, List.find?_cons_of_neg _ (by simp [hx]), ih hxs]

theorem filter_eq_nil_of_find?_none {p : α → Bool} :
    ∀ {l : List α}, l.find? p = none → l.filter p = [] := by
  intro l
  induction l with
  | nil => intro _; rfl
  | cons x xs ih =>
    intro h
    have hx : p x = false := by
      have := List.find?_eq_none.mp h x (List.mem_cons_self x xs)
      simpa using this
    have hxs : xs.find? p = none := by
      rw [List.find?_eq_none]
      intro y hy
      exact List.find?_eq_none.mp h y (List.mem_cons_of_mem x hy)
    rw [List.filter_cons_of_neg (by simp [hx]), ih hxs]

/-- C5: starting from the empty state, every sequence of `add_student`,
`add_subject`, `enroll_student`, `add_grade` and `mark_attendance` calls
leaves the state with pairwise-distinct student ids, pairwise-distinct
subject ids, at most one record per `(student_id, subject_id)` pair, and
every present grade within `[0, 100]`. -/
theorem claim_C5_invariants (acts : List ApiCall) :
    managerInvariant (runActions acts).1 :=
  managerInvariant_runActionsFrom acts StudentManager.empty managerInvariant_empty

/-- C2: `mark_attendance` does not enforce `attendance ≤ total_classes`:
after a sequence of successful calls (three attended marks, the last one
passing an explicit `total_classes = 1` smaller than the accumulated
attendance), the record for the pair has `attendance = 3` and
`total_classes = 1`, so `attendance > total_classes`. -/
theorem claim_C2_attendance_exceeds_total :
    ∃ acts : List ApiCall, (runActions acts).2 = true ∧
      ∃ r : Record, (runActions acts).1.get_record "s1" "c1" = some r ∧
        ∃ a t : Int, r.attendance = some a ∧ r.total_classes = some t ∧ t < a := by
  refine ⟨[.addStudent "s1" "Ann" "ann@mail.com" none,
    .addSubject "c1" "Math" "MA1" none, .enroll "s1" "c1",
    .markAttendance "s1" "c1" true none, .markAttendance "s1" "c1" true none,
    .markAttendance "s1" "c1" true (some 1)],
    by decide, ⟨"s1", "c1", none, some 3, some 1⟩, by decide, 3, 1, rfl, rfl, by decide⟩

/-- C1: every successful `mark_attendance` call updates exactly the
targeted record — the existing record for the pair, or a freshly created
bare record — by the four-step policy `claimPolicy`; in particular, on a
fresh enrollment two calls with `attended=True` and no explicit
`total_classes` yield `attendance=2, total_classes=2`, and one call with
`attended=True, total_classes=10` yields `attendance=1,
total_classes=10`. -/
theorem claim_C1_mark_attendance_policy :
    (∀ (m : StudentManager) (sid subid : String) (att : Bool) (tc : Option Int),
      (m.mark_attendance sid subid att tc).2 = true →
        (m.mark_attendance sid subid att tc).1.records =
          match m.get_record sid subid with
          | some _ => updateFirst (recMatch sid subid) (claimPolicy att tc) m.records
          | none => m.records ++ [claimPolicy att tc ⟨sid, subid, none, none, none⟩]) ∧
    ((runActions [.addStudent "s1" "Ann" "ann@mail.com" none,
        .addSubject "c1" "Math" "MA1" none, .enroll "s1" "c1",
        .markAttendance "s1" "c1" true none,
        .markAttendance "s1" "c1" true none]).2 = true ∧
      (runActions [.addStudent "s1" "Ann" "ann@mail.com" none,
        .addSubject "c1" "Math" "MA1" none, .enroll "s1" "c1",
        .markAttendance "s1" "c1" true none,
        .markAttendance "s1" "c1" true none]).1.get_record "s1" "c1" =
        some ⟨"s1", "c1", none, some 2, some 2⟩) ∧
    ((runActions [.addStudent "s1" "Ann" "ann@mail.com" none,
        .addSubject "c1" "Math" "MA1" none, .enroll "s1" "c1",
        .markAttendance "s1" "c1" true (some 10)]).2 = true ∧
      (runActions [.addStudent "s1" "Ann" "ann@mail.com" none,
        .addSubject "c1" "Math" "MA1" none, .enroll "s1" "c1",
        .markAttendance "s1" "c1" true (some 10)]).1.get_record "s1" "c1" =
        some ⟨"s1", "c1", none, some 1, some 10⟩) := by
  refine ⟨?_, by constructor <;> decide, by constructor <;> decide⟩
  intro m sid subid att tc hsucc
  rcases hr : m.get_record sid subid with _ | r
  · simp only [StudentManager.mark_attendance, hr] at hsucc ⊢
    by_cases hc : (m.get_student sid).isNone = true ∨ (m.get_subject subid).isNone = true
    · rw [if_pos hc] at hsucc
      exact absurd hsucc (by simp)
    · rw [if_neg hc]
      simp only [attendanceUpdate_funext]
  · simp only [StudentManager.mark_attendance, hr]
    rw [attendanceUpdate_funext]

/-- Witness for C1: a state with an existing record for the pair, where
the successful call rewrites the record list by the policy. -/
theorem claim_C1_witness :
    ((runActions [.addStudent "s1" "Ann" "ann@mail.com" none,
        .addSubject "c1" "Math" "MA1" none, .enroll "s1" "c1"]).1.mark_attendance
          "s1" "c1" true none).2 = true ∧
    ((runActions [.addStudent "s1" "Ann" "ann@mail.com" none,
        .addSubject "c1" "Math" "MA1" none, .enroll "s1" "c1"]).1.mark_attendance
          "s1" "c1" true none).1.records =
      match (runActions [.addStudent "s1" "Ann" "ann@mail.com" none,
        .addSubject "c1" "Math" "MA1" none, .enroll "s1" "c1"]).1.get_record "s1" "c1" with
      | some _ => updateFirst (recMatch "s1" "c1") (claimPolicy true none)
          (runActions [.addStudent "s1" "Ann" "ann@mail.com" none,
            .addSubject "c1" "Math" "MA1" none, .enroll "s1" "c1"]).1.records
      | none => (runActions [.addStudent "s1" "Ann" "ann@mail.com" none,
          .addSubject "c1" "Math" "MA1" none, .enroll "s1" "c1"]).1.records ++
          [claimPolicy true none ⟨"s1", "c1", none, none, none⟩] :=
  ⟨by decide, claim_C1_mark_attendance_policy.1 _ "s1" "c1" true none (by decide)⟩

theorem enroll_spec_aux (m : StudentManager) (sid subid : String) :
    ((m.enroll_student sid subid).2 = true ↔
      (m.get_student sid).isSome = true ∧ (m.get_subject subid).isSome = true ∧
        m.get_record sid subid = none) ∧
    ((m.enroll_student sid subid).2 = true →
      (m.enroll_student sid subid).1.records =
        m.records ++ [⟨sid, subid, none, none, none⟩] ∧
      ((m.enroll_student sid subid).1.enroll_student sid subid).2 = false ∧
      ((m.enroll_student sid subid).1.records.filter (recMatch sid subid)).length = 1) := by
  have hiff : (m.enroll_student sid subid).2 = true ↔
      (m.get_student sid).isSome = true ∧ (m.get_subject subid).isSome = true ∧
        m.get_record sid subid = none := by
    rw [StudentManager.enroll_student]
    rcases hs : m.get_student sid with _ | s <;>
      rcases hb : m.get_subject subid with _ | b <;>
        rcases hr : m.get_record sid subid with _ | r <;> simp
  refine ⟨hiff, ?_⟩
  intro hsucc
  obtain ⟨hs, hb, hr⟩ := hiff.mp hsucc
  rcases ho : m.get_student sid with _ | s
  · rw [ho] at hs
    exact absurd hs (by simp)
  rcases hc : m.get_subject subid with _ | b
  · rw [hc] at hb
    exact absurd hb (by simp)
  have he : m.enroll_student sid subid =
      ({ m with
          records := m.records ++ [⟨sid, subid, none, none, none⟩]
          saves := m.saves + 1 }, true) := by
    rw [StudentManager.enroll_student, if_neg (by simp [ho]), if_neg (by simp [hc]),
      if_neg (by simp [hr])]
  have hrecs : (m.enroll_student sid subid).1.records =
      m.records ++ [⟨sid, subid, none, none, none⟩] := by
    rw [he]
  refine ⟨hrecs, ?_, ?_⟩
  · rw [he]
    have hs2 : ({ m with
        records := m.records ++ [⟨sid, subid, none, none, none⟩]
        saves := m.saves + 1 } : StudentManager).get_student sid = some s := ho
    have hr2 : ({ m with
        records := m.records ++ [⟨sid, subid, none, none, none⟩]
        saves := m.saves + 1 } : StudentManager).get_record sid subid =
          some ⟨sid, subid, none, none, none⟩ := by
      show (m.records ++ [(⟨sid, subid, none, none, none⟩ : Record)]).find?
        (recMatch sid subid) = _
      rw [find?_append_none hr, List.find?_cons_of_pos _ (by simp [recMatch])]
    rw [StudentManager.enroll_student, if_neg (by simp [hs2]), if_neg ?hcsub,
      if_pos (by simp [hr2])]
    case hcsub =>
      have hc2 : ({ m with
          records := m.records ++ [⟨sid, subid, none, none, none⟩]
          saves := m.saves + 1 } : StudentManager).get_subject subid = some b := hc
      simp [hc2]
  · rw [hrecs, List.filter_append, filter_eq_nil_of_find?_none hr,
      List.filter_cons_of_pos (by simp [recMatch])]
    simp

/-- C6: `enroll_student` succeeds exactly when the student and subject
exist and the pair is not yet enrolled; on success it appends a record
with grade, attendance and total_classes all absent, a second enrollment
of the same pair then fails, and exactly one record for the pair
exists afterwards. -/
theorem claim_C6_enroll (m : StudentManager) (sid subid : String) :
    ((m.enroll_student sid subid).2 = true ↔
      (m.get_student sid).isSome = true ∧ (m.get_subject subid).isSome = true ∧
        m.get_record sid subid = none) ∧
    ((m.enroll_student sid subid).2 = true →
      (m.enroll_student sid subid).1.records =
        m.records ++ [⟨sid, subid, none, none, none⟩] ∧
      ((m.enroll_student sid subid).1.enroll_student sid subid).2 = false ∧
      ((m.enroll_student sid subid).1.records.filter (recMatch sid subid)).length = 1) :=
  enroll_spec_aux m sid subid

/-- Witness for C6: a concrete successful enrollment on a one-student,
one-subject state, with the appended record, the failing re-enrollment
and the record count all instantiated. -/
theorem claim_C6_witness :
    (((runActions [.addStudent "s1" "Ann" "ann@mail.com" none,
        .addSubject "c1" "Math" "MA1" none]).1.enroll_student "s1" "c1").2 = true ↔
      ((runActions [.addStudent "s1" "Ann" "ann@mail.com" none,
        .addSubject "c1" "Math" "MA1" none]).1.get_student "s1").isSome = true ∧
      ((runActions [.addStudent "s1" "Ann" "ann@mail.com" none,
        .addSubject "c1" "Math" "MA1" none]).1.get_subject "c1").isSome = true ∧
      (runActions [.addStudent "s1" "Ann" "ann@mail.com" none,
        .addSubject "c1" "Math" "MA1" none]).1.get_record "s1" "c1" = none) ∧
    (((runActions [.addStudent "s1" "Ann" "ann@mail.com" none,
        .addSubject "c1" "Math" "MA1" none]).1.enroll_student "s1" "c1").1.enroll_student
          "s1" "c1").2 = false :=
  ⟨(claim_C6_enroll _ "s1" "c1").1,
    ((claim_C6_enroll _ "s1" "c1").2 (by decide)).2.1⟩

/-- C7: `add_grade` rejects any grade outside `[0, 100]`; with a valid
grade it fails when no record exists and either entity is missing,
creates a record carrying only the grade when no record exists but both
entities do, and overwrites the grade of the first matching record when
one exists; after a successful enrollment it succeeds and leaves the
pair's record with exactly the given grade. -/
theorem claim_C7_add_grade (m : StudentManager) (sid subid : String) (g : ℚ) :
    ((g < 0 ∨ g > 100) → m.add_grade sid subid g = (m, false)) ∧
    (0 ≤ g → g ≤ 100 → m.get_record sid subid = none →
      (((m.get_student sid).isNone = true ∨ (m.get_subject subid).isNone = true) →
        m.add_grade sid subid g = (m, false)) ∧
      ((m.get_student sid).isSome = true → (m.get_subject subid).isSome = true →
        m.add_grade sid subid g =
          ({ m with
              records := m.records ++ [⟨sid, subid, some g, none, none⟩]
              saves := m.saves + 1 }, true))) ∧
    (0 ≤ g → g ≤ 100 → (m.get_record sid subid).isSome = true →
      m.add_grade sid subid g =
        ({ m with
            records := updateFirst (recMatch sid subid)
              (fun r => { r with grade := some g }) m.records
            saves := m.saves + 1 }, true)) ∧
    ((m.enroll_student sid subid).2 = true → 0 ≤ g → g ≤ 100 →
      ((m.enroll_student sid subid).1.add_grade sid subid g).2 = true ∧
      ((m.enroll_student sid subid).1.add_grade sid subid g).1.get_record sid subid =
        some ⟨sid, subid, some g, none, none⟩) := by
  refine ⟨?_, ?_, ?_, ?_⟩
  · intro h
    rw [StudentManager.add_grade, if_pos h]
  · intro h0 h100 hr
    have hrange : ¬(g < 0 ∨ g > 100) := by
      push_neg
      exact ⟨h0, h100⟩
    constructor
    · intro hmiss
      simp only [StudentManager.add_grade, hr]
      rw [if_neg hrange, if_pos hmiss]
    · intro hs hb
      simp only [StudentManager.add_grade, hr]
      rw [if_neg hrange, if_neg (by
        simp only [Option.isNone_iff_eq_none, not_or]
        exact ⟨Option.ne_none_iff_isSome.mpr hs, Option.ne_none_iff_isSome.mpr hb⟩)]
  · intro h0 h100 hsome
    have hrange : ¬(g < 0 ∨ g > 100) := by
      push_neg
      exact ⟨h0, h100⟩
    rcases hr : m.get_record sid subid with _ | r
    · rw [hr] at hsome
      exact absurd hsome (by simp)
    · simp only [StudentManager.add_grade, hr]
      rw [if_neg hrange]
  · intro hsucc h0 h100
    have hrange : ¬(g < 0 ∨ g > 100) := by
      push_neg
      exact ⟨h0, h100⟩
    obtain ⟨hs, hb, hr⟩ := (enroll_spec_aux m sid subid).1.mp hsucc
    have hrecs := ((enroll_spec_aux m sid subid).2 hsucc).1
    have hr2 : (m.enroll_student sid subid).1.get_record sid subid =
        some ⟨sid, subid, none, none, none⟩ := by
      show ((m.enroll_student sid subid).1.records).find? (recMatch sid subid) = _
      rw [hrecs, find?_append_none hr, List.find?_cons_of_pos _ (by simp [recMatch])]
    have he : (m.enroll_student sid subid).1.add_grade sid subid g =
        ({ (m.enroll_student sid subid).1 with
            records := updateFirst (recMatch sid subid)
              (fun r => { r with grade := some g }) (m.enroll_student sid subid).1.records
            saves := (m.enroll_student sid subid).1.saves + 1 }, true) := by
      simp only [StudentManager.add_grade, hr2]
      rw [if_neg hrange]
    refine ⟨by rw [he], ?_⟩
    rw [he]
    show (updateFirst (recMatch sid subid)
      (fun r => { r with grade := some g }) (m.enroll_student sid subid).1.records).find?
        (recMatch sid subid) = _
    rw [find?_updateFirst (by intro x hx; simpa [recMatch] using hx) _]
    show Option.map _ ((m.enroll_student sid subid).1.get_record sid subid) = _
    rw [hr2]
    rfl

/-- Witness for C7: on the state after a successful concrete enrollment,
`add_grade` with grade 85.5 succeeds and stores exactly that grade; and
an out-of-range grade is rejected. -/
theorem claim_C7_witness :
    ((runActions [.addStudent "s1" "Ann" "ann@mail.com" none,
        .addSubject "c1" "Math" "MA1" none]).1.add_grade "s1" "c1" (mkRat 101 1) =
      ((runActions [.addStudent "s1" "Ann" "ann@mail.com" none,
        .addSubject "c1" "Math" "MA1" none]).1, false)) ∧
    ((((runActions [.addStudent "s1" "Ann" "ann@mail.com" none,
        .addSubject "c1" "Math" "MA1" none]).1.enroll_student "s1" "c1").1.add_grade
          "s1" "c1" (mkRat 171 2)).1.get_record "s1" "c1" =
      some ⟨"s1", "c1", some (mkRat 171 2), none, none⟩) := by
  constructor
  · exact (claim_C7_add_grade _ "s1" "c1" (mkRat 101 1)).1
      (Or.inr (by norm_num [mkRat, Rat.normalize]))
  · exact (((claim_C7_add_grade _ "s1" "c1" (mkRat 171 2)).2.2.2
      (by decide) (by norm_num [mkRat, Rat.normalize])
      (by norm_num [mkRat, Rat.normalize]))).2

/-- C8: whenever one of the five mutating operations returns `False`,
the state — the three collections and the `save_all` counter — is
exactly the pre-call state, so nothing was added, removed or mutated and
no save was performed; in particular, adding a student whose id already
exists always fails and leaves the state unchanged. -/
theorem claim_C8_failure_no_change (m : StudentManager) (sid n e subid c : String)
    (a cr tc : Option Int) (g : ℚ) (att : Bool) :
    ((m.add_student sid n e a).2 = false → (m.add_student sid n e a).1 = m) ∧
    ((m.add_subject subid n c cr).2 = false → (m.add_subject subid n c cr).1 = m) ∧
    ((m.enroll_student sid subid).2 = false → (m.enroll_student sid subid).1 = m) ∧
    ((m.add_grade sid subid g).2 = false → (m.add_grade sid subid g).1 = m) ∧
    ((m.mark_attendance sid subid att tc).2 = false →
      (m.mark_attendance sid subid att tc).1 = m) ∧
    ((m.get_student sid).isSome = true → m.add_student sid n e a = (m, false)) := by
  refine ⟨?_, ?_, ?_, ?_, ?_, ?_⟩
  · intro h
    rw [StudentManager.add_student] at h ⊢
    rcases hs : m.get_student sid with _ | s
    · simp [hs] at h
    · simp [hs]
  · intro h
    rw [StudentManager.add_subject] at h ⊢
    rcases hs : m.get_subject subid with _ | s
    · simp [hs] at h
    · simp [hs]
  · intro h
    rw [StudentManager.enroll_student] at h ⊢
    split
    · rfl
    split
    · rfl
    split
    · rfl
    rename_i h1 h2 h3
    rw [if_neg h1, if_neg h2, if_neg h3] at h
    exact absurd h (by simp)
  · intro h
    rw [StudentManager.add_grade] at h ⊢
    split
    · rfl
    rename_i hrange
    rw [if_neg hrange] at h
    rcases hr : m.get_record sid subid with _ | r <;> simp only [hr] at h ⊢
    · split
      · rfl
      rename_i hc
      rw [if_neg hc] at h
      exact absurd h (by simp)
    · exact absurd h (by simp)
  · intro h
    rw [StudentManager.mark_attendance] at h ⊢
    rcases hr : m.get_record sid subid with _ | r <;> simp only [hr] at h ⊢
    · split
      · rfl
      rename_i hc
      rw [if_neg hc] at h
      exact absurd h (by simp)
    · exact absurd h (by simp)
  · intro hs
    rcases ho : m.get_student sid with _ | s
    · rw [ho] at hs
      exact absurd hs (by simp)
    · rw [StudentManager.add_student, ho]

/-- Witness for C8: a concrete duplicate `add_student` fails and leaves
the one-student state (including its save counter) unchanged. -/
theorem claim_C8_witness :
    (runActions [.addStudent "s1" "Ann" "ann@mail.com" none]).1.add_student
      "s1" "Bob" "bob@mail.com" none =
      ((runActions [.addStudent "s1" "Ann" "ann@mail.com" none]).1, false) :=
  (claim_C8_failure_no_change _ "s1" "Bob" "bob@mail.com" "c" "c" none none none 0
    true).2.2.2.2.2 (by decide)

/-- C9: `get_student_report` returns `None` exactly when the student id
resolves to no student; otherwise it returns the student together with
one entry per record whose `student_id` matches, each entry pairing the
record with the (possibly failed, tolerated) subject lookup; a student
with no records yields an empty entry list. -/
theorem claim_C9_student_report (m : StudentManager) (sid : String) :
    (m.get_student_report sid = none ↔ m.get_student sid = none) ∧
    (∀ s, m.get_student sid = some s →
      m.get_student_report sid = some
        { student := s
          records := (m.records.filter (fun r => r.student_id == sid)).map
            (fun r => { subject := m.get_subject r.subject_id, record := r }) }) ∧
    (∀ s, m.get_student sid = some s → (∀ r ∈ m.records, r.student_id ≠ sid) →
      ∃ rep, m.get_student_report sid = some rep ∧ rep.records = []) := by
  refine ⟨?_, ?_, ?_⟩
  · rw [StudentManager.get_student_report]
    rcases hs : m.get_student sid with _ | s <;> simp
  · intro s hs
    rw [StudentManager.get_student_report, hs]
    rfl
  · intro s hs hnone
    refine ⟨{ student := s, records := [] }, ?_, rfl⟩
    rw [StudentManager.get_student_report, hs]
    have hrec : m.get_student_records sid = [] := by
      rw [StudentManager.get_student_records, List.filter_eq_nil_iff]
      intro r hr
      simp only [beq_iff_eq]
      exact fun hcontra => hnone r hr hcontra
    rw [hrec]
    rfl

/-- Witness for C9: on a concrete two-student state (one with a record,
one with none), the report of a missing id is absent, the report of the
enrolled student lists their one record, and the report of the
record-less student has an empty list. -/
theorem claim_C9_witness :
    ((runActions [.addStudent "s1" "Ann" "ann@mail.com" none,
        .addStudent "s2" "Bob" "bob@mail.com" none,
        .addSubject "c1" "Math" "MA1" none,
        .enroll "s1" "c1"]).1.get_student_report "zzz" = none ↔
      (runActions [.addStudent "s1" "Ann" "ann@mail.com" none,
        .addStudent "s2" "Bob" "bob@mail.com" none,
        .addSubject "c1" "Math" "MA1" none,
        .enroll "s1" "c1"]).1.get_student "zzz" = none) ∧
    (∃ rep, (runActions [.addStudent "s1" "Ann" "ann@mail.com" none,
        .addStudent "s2" "Bob" "bob@mail.com" none,
        .addSubject "c1" "Math" "MA1" none,
        .enroll "s1" "c1"]).1.get_student_report "s2" = some rep ∧ rep.records = []) :=
  ⟨(claim_C9_student_report _ "zzz").1,
    (claim_C9_student_report _ "s2").2.2 ⟨"s2", "Bob", "bob@mail.com", none⟩
      (by decide) (by decide)⟩

/-! ## Well-formedness of persisted values

The round-trip properties hold for values whose string fields survive
the `|`-delimited, line-oriented, stripped file format: no `|` or
newline inside a field, no leading/trailing whitespace (the loader
strips each column), and an id column that does not begin with the `#`
comment marker. -/

/-- Characters that can appear in a printed number: digits, minus,
decimal point. -/
def numCh (c : Char) : Bool := isDigitCh c || c == '-' || c == '.'

/-- No field separator or newline inside the chunk. -/
def noSepB (l : List Char) : Bool := l.all (fun c => !(c == '|') && !(c == '\n'))

/-- No whitespace at either end of the chunk (stripping is a no-op). -/
def edgeOkB (l : List Char) : Bool :=
  (match l.head? with
    | some c => !c.isWhitespace
    | none => true) &&
  (match l.getLast? with
    | some c => !c.isWhitespace
    | none => true)

/-- A string that survives one save/load cycle of a text column. -/
def goodFieldB (s : String) : Bool := noSepB s.data && edgeOkB s.data

/-- The id column must not begin with the `#` comment marker. -/
def noHashB (s : String) : Bool :=
  match s.data.head? with
  | some c => !(c == '#')
  | none => true

/-- A student whose text fields survive the file format. -/
def goodStudentB (s : Student) : Bool :=
  goodFieldB s.student_id && noHashB s.student_id &&
    goodFieldB s.name && goodFieldB s.email

/-- A subject whose text fields survive the file format. -/
def goodSubjectB (s : Subject) : Bool :=
  goodFieldB s.subject_id && noHashB s.subject_id &&
    goodFieldB s.name && goodFieldB s.code

/-- A record whose text fields survive the file format and whose grade
(a Python float in the source) has a terminating decimal expansion. -/
def goodRecordB (r : Record) : Bool :=
  goodFieldB r.student_id && noHashB r.student_id && goodFieldB r.subject_id &&
    (match r.grade with
      | none => true
      | some q => finiteDecB q)

/-- Writing `str(x) if x else ''` collapses both `None` and `0` to the empty
string, so reloading yields `None` for both: the normalization the
save/load cycle applies to `Student.age` and `Subject.credits`. -/
def normTruthyInt (x : Option Int) : Option Int :=
  match x with
  | none => none
  | some v => if v = 0 then none else some v

/-- What one save/load cycle does to a `Student`. -/
def normStudent (s : Student) : Student := { s with age := normTruthyInt s.age }

/-- What one save/load cycle does to a `Subject`: the `name`/`code`
swap of the loader plus the truthiness collapse on `credits`. -/
def loadedSubject (s : Subject) : Subject :=
  ⟨s.subject_id, s.code, s.name, normTruthyInt s.credits⟩

/-! ### Character-class lemmas -/

theorem numCh_not_ws {c : Char} (h : numCh c = true) : c.isWhitespace = false := by
  rw [numCh] at h
  rcases Bool.or_eq_true_iff.mp h with h | h
  · rcases Bool.or_eq_true_iff.mp h with h | h
    · exact isDigitCh_not_ws h
    · rw [show c = '-' from by simpa using h]
      decide
  · rw [show c = '.' from by simpa using h]
    decide

theorem numCh_ne {c : Char} (h : numCh c = true) :
    c ≠ '|' ∧ c ≠ '\n' := by
  rw [numCh] at h
  rcases Bool.or_eq_true_iff.mp h with h | h
  · rcases Bool.or_eq_true_iff.mp h with h | h
    · exact ⟨isDigitCh_ne_of_not c '|' (by decide) h,
        isDigitCh_ne_of_not c '\n' (by decide) h⟩
    · rw [show c = '-' from by simpa using h]
      exact ⟨by decide, by decide⟩
  · rw [show c = '.' from by simpa using h]
    exact ⟨by decide, by decide⟩

theorem stripChars_of_all_not_ws (l : List Char)
    (h : ∀ c ∈ l, c.isWhitespace = false) : stripChars l = l := by
  refine stripChars_eq_self l ?_ ?_
  · intro c hc
    cases l with
    | nil => exact absurd hc (by simp)
    | cons x xs =>
      simp only [List.head?_cons, Option.some.injEq] at hc
      exact h c (hc ▸ List.mem_cons_self x xs)
  · intro c hc
    exact h c (List.mem_of_mem_getLast? (Option.mem_def.mpr hc))

theorem natChars_all_numCh (n : Nat) : ∀ c ∈ natChars n, numCh c = true := by
  intro c hc
  have := List.all_eq_true.mp (natChars_all_digits n) c hc
  rw [numCh]
  simp [this]

theorem intChars_all_numCh (i : Int) : ∀ c ∈ intChars i, numCh c = true := by
  intro c hc
  rw [intChars] at hc
  split at hc
  · rcases List.mem_cons.mp hc with hc | hc
    · subst hc
      decide
    · exact natChars_all_numCh _ c hc
  · exact natChars_all_numCh _ c hc

/-! ### Round-trip of the decimal grade notation -/

theorem natVal_replicate_zero (n : Nat) : natVal (List.replicate n '0') = 0 := by
  induction n with
  | zero => rfl
  | succ m ih =>
    rw [List.replicate_succ', natVal_append, ih]
    rfl

theorem natVal_padLeftZeros (k : Nat) (l : List Char) :
    natVal (padLeftZeros k l) = natVal l := by
  rw [padLeftZeros, natVal_append, natVal_replicate_zero]
  ring

theorem padLeftZeros_all_digits {l : List Char} (h : l.all isDigitCh = true)
    (k : Nat) : (padLeftZeros k l).all isDigitCh = true := by
  rw [padLeftZeros, List.all_append, h, Bool.and_true]
  rw [List.all_eq_true]
  intro c hc
  rw [List.eq_of_mem_replicate hc]
  decide

theorem padLeftZeros_length_ge (k : Nat) (l : List Char) :
    k ≤ (padLeftZeros k l).length := by
  rw [padLeftZeros, List.length_append, List.length_replicate]
  omega

theorem padLeftZeros_eq_self {k : Nat} {l : List Char} (h : k ≤ l.length) :
    padLeftZeros k l = l := by
  rw [padLeftZeros, Nat.sub_eq_zero_of_le h]
  rfl

theorem all_digits_no_dot {l : List Char} (h : l.all isDigitCh = true) :
    ∀ c ∈ l, c ≠ '.' := by
  intro c hc
  exact isDigitCh_ne_of_not c '.' (by decide) (List.all_eq_true.mp h c hc)

theorem splitCh_single (sep : Char) (l : List Char) (h : ∀ c ∈ l, c ≠ sep) :
    splitCh sep l = [l] := by
  rw [splitCh, splitChAux_no_sep sep l [] h]
  rfl

theorem parseRatPosChars_pair {l ip fp : List Char}
    (h : splitCh '.' l = [ip, fp])
    (hcond : (ip ≠ [] ∨ fp ≠ []) ∧ ip.all isDigitCh = true ∧ fp.all isDigitCh = true) :
    parseRatPosChars l = some ((natVal ip : ℚ) + (natVal fp : ℚ) / 10 ^ fp.length) := by
  rw [parseRatPosChars, h]
  exact if_pos hcond

theorem parseRatPos_frac (ds : List Char) (k : Nat) (q : ℚ)
    (hdigits : ds.all isDigitCh = true) (hlen : k + 1 ≤ ds.length)
    (hval : (natVal ds : ℚ) = q * 10 ^ k) :
    parseRatPosChars (ds.take (ds.length - k) ++ '.' :: ds.drop (ds.length - k))
      = some q := by
  have hsplit := splitCh_two '.' (ds.take (ds.length - k)) (ds.drop (ds.length - k))
    (fun c hc => all_digits_no_dot hdigits c (List.take_subset _ _ hc))
    (fun c hc => all_digits_no_dot hdigits c (List.drop_subset _ _ hc))
  have hip_len : (ds.take (ds.length - k)).length = ds.length - k := by
    rw [List.length_take]
    omega
  have hip_ne : ds.take (ds.length - k) ≠ [] := by
    rw [← List.length_pos, hip_len]
    omega
  have hip_digits : (ds.take (ds.length - k)).all isDigitCh = true :=
    List.all_eq_true.mpr (fun c hc =>
      List.all_eq_true.mp hdigits c (List.take_subset _ _ hc))
  have hfp_digits : (ds.drop (ds.length - k)).all isDigitCh = true :=
    List.all_eq_true.mpr (fun c hc =>
      List.all_eq_true.mp hdigits c (List.drop_subset _ _ hc))
  have hfp_len : (ds.drop (ds.length - k)).length = k := by
    rw [List.length_drop]
    omega
  rw [parseRatPosChars_pair hsplit ⟨Or.inl hip_ne, hip_digits, hfp_digits⟩]
  have hsplit_val : natVal (ds.take (ds.length - k)) * 10 ^ k
      + natVal (ds.drop (ds.length - k)) = natVal ds := by
    conv_rhs => rw [← List.take_append_drop (ds.length - k) ds]
    rw [natVal_append, hfp_len]
  congr 1
  rw [hfp_len]
  have hten : ((10 : ℚ)) ^ k ≠ 0 := by positivity
  have hkey : (natVal (ds.take (ds.length - k)) : ℚ) * 10 ^ k
      + natVal (ds.drop (ds.length - k)) = q * 10 ^ k := by
    rw [← hval]
    exact_mod_cast hsplit_val
  field_simp
  linarith [hkey]

theorem head_digit_frac (ds : List Char) (k : Nat)
    (hdigits : ds.all isDigitCh = true) (hlen : k + 1 ≤ ds.length) :
    ∃ c cs, ds.take (ds.length - k) ++ '.' :: ds.drop (ds.length - k) = c :: cs ∧
      isDigitCh c = true := by
  have hne : ds ≠ [] := by
    intro h0
    rw [h0] at hlen
    simp at hlen
  obtain ⟨c, cs, hl, hc⟩ := exists_head_digit hne hdigits
  obtain ⟨j, hj⟩ : ∃ j, ds.length - k = j + 1 := ⟨ds.length - k - 1, by omega⟩
  refine ⟨c, cs.take j ++ '.' :: ds.drop (j + 1), ⟨?_, hc⟩⟩
  rw [hj, hl, List.take_succ_cons, List.cons_append]

theorem parseRatPos_ratCharsPos (q : ℚ) (hq : 0 ≤ q)
    (hfin : (q * 10 ^ decExp q).den = 1) :
    parseRatPosChars (ratCharsPos q) = some q ∧
      ∃ c cs, ratCharsPos q = c :: cs ∧ isDigitCh c = true := by
  have hmnn : 0 ≤ (q * 10 ^ decExp q).num := by
    rw [Rat.num_nonneg]
    exact mul_nonneg hq (by positivity)
  have hcast : (((q * 10 ^ decExp q).num.toNat : ℚ)) = q * 10 ^ decExp q := by
    rw [← Rat.coe_int_num_of_den_eq_one hfin]
    exact_mod_cast congrArg (fun z : ℤ => (z : ℚ)) (Int.toNat_of_nonneg hmnn)
  have hds_digits : (padLeftZeros (decExp q + 1)
      (natChars (q * 10 ^ decExp q).num.toNat)).all isDigitCh = true :=
    padLeftZeros_all_digits (natChars_all_digits _) _
  have hds_len : decExp q + 1 ≤ (padLeftZeros (decExp q + 1)
      (natChars (q * 10 ^ decExp q).num.toNat)).length :=
    padLeftZeros_length_ge _ _
  have hds_val : (natVal (padLeftZeros (decExp q + 1)
      (natChars (q * 10 ^ decExp q).num.toNat)) : ℚ) = q * 10 ^ decExp q := by
    rw [natVal_padLeftZeros, natVal_natChars, hcast]
  by_cases hk : decExp q = 0
  · -- integral case: `ds ++ ".0"`
    have hnat_len : 0 < (natChars (q * 10 ^ decExp q).num.toNat).length :=
      List.length_pos.mpr (natChars_ne_nil _)
    have hds_eq : padLeftZeros (decExp q + 1)
        (natChars (q * 10 ^ decExp q).num.toNat)
          = natChars (q * 10 ^ decExp q).num.toNat := by
      refine padLeftZeros_eq_self ?_
      omega
    have hshape : ratCharsPos q
        = natChars (q * 10 ^ decExp q).num.toNat ++ ['.', '0'] := by
      simp only [ratCharsPos]
      rw [if_pos hk, hds_eq]
    obtain ⟨c, cs, hl, hc⟩ := exists_head_digit (natChars_ne_nil
      (q * 10 ^ decExp q).num.toNat) (natChars_all_digits _)
    constructor
    · rw [hshape, parseRatPosChars_pair
        (splitCh_two '.' (natChars (q * 10 ^ decExp q).num.toNat) ['0']
          (all_digits_no_dot (natChars_all_digits _)) (by decide))
        ⟨Or.inl (natChars_ne_nil _), natChars_all_digits _, by decide⟩]
      congr 1
      rw [natVal_natChars, show natVal ['0'] = 0 from rfl]
      rw [show (((q * 10 ^ decExp q).num.toNat : ℚ)) = q * 10 ^ decExp q from hcast, hk]
      norm_num
    · exact ⟨c, cs ++ ['.', '0'], ⟨by rw [hshape, hl, List.cons_append], hc⟩⟩
  · -- fractional case: `ip ++ '.' :: fp`
    have hshape : ratCharsPos q
        = (padLeftZeros (decExp q + 1)
            (natChars (q * 10 ^ decExp q).num.toNat)).take
              ((padLeftZeros (decExp q + 1)
                (natChars (q * 10 ^ decExp q).num.toNat)).length - decExp q)
          ++ '.' :: (padLeftZeros (decExp q + 1)
            (natChars (q * 10 ^ decExp q).num.toNat)).drop
              ((padLeftZeros (decExp q + 1)
                (natChars (q * 10 ^ decExp q).num.toNat)).length - decExp q) := by
      simp only [ratCharsPos]
      rw [if_neg hk]
    constructor
    · rw [hshape]
      exact parseRatPos_frac _ (decExp q) q hds_digits hds_len hds_val
    · rw [hshape]
      exact head_digit_frac _ (decExp q) hds_digits hds_len

theorem parseRatChars_ratChars (q : ℚ) (hfin : finiteDecB q = true) :
    parseRatChars (ratChars q) = some q := by
  rw [finiteDecB] at hfin
  by_cases hq : q < 0
  · rw [if_pos hq] at hfin
    have hfin' : (-q * 10 ^ decExp (-q)).den = 1 := by simpa using hfin
    obtain ⟨hparse, c, cs, hl, hc⟩ := parseRatPos_ratCharsPos (-q) (by linarith) hfin'
    rw [ratChars, if_pos hq, parseRatChars, if_pos rfl, hparse]
    simp
  · rw [if_neg hq] at hfin
    have hfin' : (q * 10 ^ decExp q).den = 1 := by simpa using hfin
    obtain ⟨hparse, c, cs, hl, hc⟩ := parseRatPos_ratCharsPos q (by linarith) hfin'
    rw [ratChars, if_neg hq, hl, parseRatChars,
      if_neg (isDigitCh_ne_of_not c '-' (by decide) hc), ← hl, hparse]

/-! ### Field-level facts used by the loader round-trips -/

theorem edgeOkB_head {l : List Char} (h : edgeOkB l = true) :
    ∀ c, l.head? = some c → c.isWhitespace = false := by
  intro c hc
  rw [edgeOkB, Bool.and_eq_true] at h
  have h1 := h.1
  rw [hc] at h1
  simpa using h1

theorem edgeOkB_last {l : List Char} (h : edgeOkB l = true) :
    ∀ c, l.getLast? = some c → c.isWhitespace = false := by
  intro c hc
  rw [edgeOkB, Bool.and_eq_true] at h
  have h2 := h.2
  rw [hc] at h2
  simpa using h2

theorem goodFieldB_strip {s : String} (h : goodFieldB s = true) :
    stripChars s.data = s.data := by
  rw [goodFieldB, Bool.and_eq_true] at h
  exact stripChars_eq_self _ (edgeOkB_head h.2) (edgeOkB_last h.2)

theorem goodFieldB_noSep {s : String} (h : goodFieldB s = true) :
    ∀ c ∈ s.data, c ≠ '|' ∧ c ≠ '\n' := by
  rw [goodFieldB, Bool.and_eq_true] at h
  intro c hc
  have hcc := List.all_eq_true.mp h.1 c hc
  rw [Bool.and_eq_true] at hcc
  constructor
  · intro he
    subst he
    simpa using hcc.1
  · intro he
    subst he
    simpa using hcc.2

theorem stripChars_numChunk {l : List Char} (h : ∀ c ∈ l, numCh c = true) :
    stripChars l = l :=
  stripChars_of_all_not_ws l (fun c hc => numCh_not_ws (h c hc))

theorem intChars_ne_nil (i : Int) : intChars i ≠ [] := by
  rw [intChars]
  split
  · simp
  · exact natChars_ne_nil _

theorem ratCharsPos_all_numCh (q : ℚ) : ∀ c ∈ ratCharsPos q, numCh c = true := by
  intro c hc
  have hds := padLeftZeros_all_digits (natChars_all_digits
    (q * 10 ^ decExp q).num.toNat) (decExp q + 1)
  simp only [ratCharsPos] at hc
  split at hc
  · rcases List.mem_append.mp hc with hc | hc
    · rw [numCh]
      simp [List.all_eq_true.mp hds c hc]
    · rcases List.mem_cons.mp hc with hc | hc
      · subst hc
        decide
      · simp only [List.mem_singleton] at hc
        subst hc
        decide
  · rcases List.mem_append.mp hc with hc | hc
    · rw [numCh]
      simp [List.all_eq_true.mp hds c (List.take_subset _ _ hc)]
    · rcases List.mem_cons.mp hc with hc | hc
      · subst hc
        decide
      · rw [numCh]
        simp [List.all_eq_true.mp hds c (List.drop_subset _ _ hc)]

theorem ratChars_all_numCh (q : ℚ) : ∀ c ∈ ratChars q, numCh c = true := by
  intro c hc
  rw [ratChars] at hc
  split at hc
  · rcases List.mem_cons.mp hc with hc | hc
    · subst hc
      decide
    · exact ratCharsPos_all_numCh _ c hc
  · exact ratCharsPos_all_numCh q c hc

theorem ratCharsPos_ne_nil (q : ℚ) : ratCharsPos q ≠ [] := by
  simp only [ratCharsPos]
  split
  · simp
  · intro h
    exact absurd (congrArg List.length h) (by
      rw [List.length_append]
      simp)

theorem ratChars_ne_nil (q : ℚ) : ratChars q ≠ [] := by
  rw [ratChars]
  split
  · simp
  · exact ratCharsPos_ne_nil q

theorem optIntTruthy_all_numCh (x : Option Int) :
    ∀ c ∈ optIntTruthy x, numCh c = true := by
  intro c hc
  rcases x with _ | v
  · exact absurd hc (by simp [optIntTruthy])
  · rw [optIntTruthy] at hc
    split at hc
    · exact absurd hc (by simp)
    · exact intChars_all_numCh v c hc

theorem optIntByNone_all_numCh (x : Option Int) :
    ∀ c ∈ optIntByNone x, numCh c = true := by
  intro c hc
  rcases x with _ | v
  · exact absurd hc (by simp [optIntByNone])
  · exact intChars_all_numCh v c hc

theorem gradeField_all_numCh (g : Option ℚ) :
    ∀ c ∈ gradeField g, numCh c = true := by
  intro c hc
  rcases g with _ | q
  · exact absurd hc (by simp [gradeField])
  · exact ratChars_all_numCh q c hc

theorem optNumField_optIntTruthy (x : Option Int) :
    optNumField parseIntChars (some (optIntTruthy x)) = some (normTruthyInt x) := by
  rcases x with _ | v
  · rfl
  · rw [normTruthyInt]
    by_cases hv : v = 0
    · subst hv
      rfl
    · rw [if_neg hv]
      rw [optNumField]
      simp only [optIntTruthy, if_neg hv]
      rw [stripChars_numChunk (intChars_all_numCh v)]
      rw [if_neg (intChars_ne_nil v), parseIntChars_intChars]

theorem optNumField_optIntByNone (x : Option Int) :
    optNumField parseIntChars (some (optIntByNone x)) = some x := by
  rcases x with _ | v
  · rfl
  · rw [optNumField]
    simp only [optIntByNone]
    rw [stripChars_numChunk (intChars_all_numCh v)]
    rw [if_neg (intChars_ne_nil v), parseIntChars_intChars]

theorem optNumField_gradeField (g : Option ℚ)
    (h : (match g with
      | none => true
      | some q => finiteDecB q) = true) :
    optNumField parseRatChars (some (gradeField g)) = some g := by
  rcases g with _ | q
  · rfl
  · rw [optNumField]
    simp only [gradeField]
    rw [stripChars_numChunk (ratChars_all_numCh q)]
    rw [if_neg (ratChars_ne_nil q), parseRatChars_ratChars q (by simpa using h)]

/-! ### Line-level lemmas -/

theorem getLast?_append_cons (a : List Char) (c : Char) (b : List Char) :
    (a ++ c :: b).getLast? = (c :: b).getLast? := by
  rw [List.getLast?_append, List.getLast?_eq_getLast (c :: b) (by simp)]
  rfl

theorem line_last_not_ws (x f3 : List Char) (h3 : ∀ c ∈ f3, numCh c = true) :
    ∀ c, ((x ++ ['|']) ++ f3).getLast? = some c → c.isWhitespace = false := by
  intro c hc
  rw [List.getLast?_append] at hc
  cases h3l : f3.getLast? with
  | none =>
    rw [h3l] at hc
    simp only [Option.none_or] at hc
    rw [List.getLast?_concat] at hc
    injection hc with hc
    subst hc
    decide
  | some d =>
    rw [h3l] at hc
    injection hc with hc
    subst hc
    exact numCh_not_ws (h3 d (List.mem_of_mem_getLast? (Option.mem_def.mpr h3l)))

theorem line_head_not_ws (f0 Y : List Char)
    (h0 : ∀ c, f0.head? = some c → c.isWhitespace = false) :
    ∀ c, (f0 ++ '|' :: Y).head? = some c → c.isWhitespace = false := by
  intro c hc
  cases f0 with
  | nil =>
    simp only [List.nil_append, List.head?_cons, Option.some.injEq] at hc
    subst hc
    decide
  | cons x xs =>
    simp only [List.cons_append, List.head?_cons, Option.some.injEq] at hc
    subst hc
    exact h0 x rfl

theorem line_head_not_hash (f0 Y : List Char)
    (h0 : ∀ c, f0.head? = some c → c ≠ '#') :
    (f0 ++ '|' :: Y).head? ≠ some '#' := by
  cases f0 with
  | nil => simp
  | cons x xs =>
    simp only [List.cons_append, List.head?_cons, ne_eq, Option.some.injEq]
    exact h0 x rfl

theorem noHashB_head {s : String} (h : noHashB s = true) :
    ∀ c, s.data.head? = some c → c ≠ '#' := by
  intro c hc
  rw [noHashB, hc] at h
  simpa using h

theorem line4_assoc (f0 f1 f2 f3 : List Char) :
    f0 ++ '|' :: (f1 ++ '|' :: (f2 ++ '|' :: f3))
      = ((f0 ++ '|' :: (f1 ++ '|' :: f2)) ++ ['|']) ++ f3 := by
  simp

theorem line5_assoc (f0 f1 f2 f3 f4 : List Char) :
    f0 ++ '|' :: (f1 ++ '|' :: (f2 ++ '|' :: (f3 ++ '|' :: f4)))
      = ((f0 ++ '|' :: (f1 ++ '|' :: (f2 ++ '|' :: f3))) ++ ['|']) ++ f4 := by
  simp

/-! ### Loader round-trips -/

theorem loadStudentsAux_cons (s : Student) (rest : List (List Char))
    (acc : List Student) (h : goodStudentB s = true) :
    loadStudentsAux (studentLine s :: rest) acc
      = loadStudentsAux rest (normStudent s :: acc) := by
  have h' := h
  rw [goodStudentB, Bool.and_eq_true, Bool.and_eq_true, Bool.and_eq_true] at h'
  obtain ⟨⟨⟨hid, hhash⟩, hname⟩, hemail⟩ := h'
  have hstrip : stripChars (studentLine s) = studentLine s := by
    rw [studentLine, line4_assoc]
    refine stripChars_eq_self _ ?_ ?_
    · rw [← line4_assoc]
      exact line_head_not_ws _ _ (fun c hc => edgeOkB_head
        ((Bool.and_eq_true _ _).mp hid).2 c hc)
    · exact line_last_not_ws _ _ (optIntTruthy_all_numCh s.age)
  have hsplit : splitCh '|' (studentLine s)
      = [s.student_id.data, s.name.data, s.email.data, optIntTruthy s.age] := by
    rw [studentLine]
    exact splitCh_four '|' _ _ _ _
      (fun c hc => (goodFieldB_noSep hid c hc).1)
      (fun c hc => (goodFieldB_noSep hname c hc).1)
      (fun c hc => (goodFieldB_noSep hemail c hc).1)
      (fun c hc => (numCh_ne (optIntTruthy_all_numCh s.age c hc)).1)
  have hne : studentLine s ≠ [] := by
    rw [studentLine]
    simp
  have hnohash : (studentLine s).head? ≠ some '#' := by
    rw [studentLine]
    exact line_head_not_hash _ _ (noHashB_head hhash)
  simp only [loadStudentsAux, hstrip]
  rw [if_neg hne, if_neg hnohash]
  simp only [hsplit, List.head?_cons, optNumField_optIntTruthy]
  rw [goodFieldB_strip hid, goodFieldB_strip hname, goodFieldB_strip hemail]
  rfl

theorem loadStudentsAux_header (rest : List (List Char)) (acc : List Student) :
    loadStudentsAux (studentHeader :: rest) acc = loadStudentsAux rest acc := by
  simp only [loadStudentsAux]
  rw [if_neg (by decide), if_pos (by decide)]

theorem loadStudentsAux_map (l : List Student) :
    ∀ acc, (∀ s ∈ l, goodStudentB s = true) →
      loadStudentsAux (l.map studentLine) acc = acc.reverse ++ l.map normStudent := by
  induction l with
  | nil =>
    intro acc _
    simp [loadStudentsAux]
  | cons s rest ih =>
    intro acc h
    rw [List.map_cons, loadStudentsAux_cons s _ acc (h s (List.mem_cons_self s rest)),
      ih (normStudent s :: acc) (fun x hx => h x (List.mem_cons_of_mem s hx))]
    simp

theorem studentsRoundtrip (l : List Student) (h : ∀ s ∈ l, goodStudentB s = true) :
    loadStudents (studentsFileLines l) = l.map normStudent := by
  rw [loadStudents, studentsFileLines, loadStudentsAux_header, loadStudentsAux_map l [] h]
  rfl

theorem loadSubjectsAux_cons (s : Subject) (rest : List (List Char))
    (acc : List Subject) (h : goodSubjectB s = true) :
    loadSubjectsAux (subjectLine s :: rest) acc
      = loadSubjectsAux rest (loadedSubject s :: acc) := by
  have h' := h
  rw [goodSubjectB, Bool.and_eq_true, Bool.and_eq_true, Bool.and_eq_true] at h'
  obtain ⟨⟨⟨hid, hhash⟩, hname⟩, hcode⟩ := h'
  have hstrip : stripChars (subjectLine s) = subjectLine s := by
    rw [subjectLine, line4_assoc]
    refine stripChars_eq_self _ ?_ ?_
    · rw [← line4_assoc]
      exact line_head_not_ws _ _ (fun c hc => edgeOkB_head
        ((Bool.and_eq_true _ _).mp hid).2 c hc)
    · exact line_last_not_ws _ _ (optIntTruthy_all_numCh s.credits)
  have hsplit : splitCh '|' (subjectLine s)
      = [s.subject_id.data, s.code.data, s.name.data, optIntTruthy s.credits] := by
    rw [subjectLine]
    exact splitCh_four '|' _ _ _ _
      (fun c hc => (goodFieldB_noSep hid c hc).1)
      (fun c hc => (goodFieldB_noSep hcode c hc).1)
      (fun c hc => (goodFieldB_noSep hname c hc).1)
      (fun c hc => (numCh_ne (optIntTruthy_all_numCh s.credits c hc)).1)
  have hne : subjectLine s ≠ [] := by
    rw [subjectLine]
    simp
  have hnohash : (subjectLine s).head? ≠ some '#' := by
    rw [subjectLine]
    exact line_head_not_hash _ _ (noHashB_head hhash)
  simp only [loadSubjectsAux, hstrip]
  rw [if_neg hne, if_neg hnohash]
  simp only [hsplit, List.head?_cons, optNumField_optIntTruthy]
  rw [goodFieldB_strip hid, goodFieldB_strip hcode, goodFieldB_strip hname]
  rfl

theorem loadSubjectsAux_header (rest : List (List Char)) (acc : List Subject) :
    loadSubjectsAux (subjectHeader :: rest) acc = loadSubjectsAux rest acc := by
  simp only [loadSubjectsAux]
  rw [if_neg (by decide), if_pos (by decide)]

theorem loadSubjectsAux_map (l : List Subject) :
    ∀ acc, (∀ s ∈ l, goodSubjectB s = true) →
      loadSubjectsAux (l.map subjectLine) acc = acc.reverse ++ l.map loadedSubject := by
  induction l with
  | nil =>
    intro acc _
    simp [loadSubjectsAux]
  | cons s rest ih =>
    intro acc h
    rw [List.map_cons, loadSubjectsAux_cons s _ acc (h s (List.mem_cons_self s rest)),
      ih (loadedSubject s :: acc) (fun x hx => h x (List.mem_cons_of_mem s hx))]
    simp

theorem subjectsRoundtrip (l : List Subject) (h : ∀ s ∈ l, goodSubjectB s = true) :
    loadSubjects (subjectsFileLines l) = l.map loadedSubject := by
  rw [loadSubjects, subjectsFileLines, loadSubjectsAux_header, loadSubjectsAux_map l [] h]
  rfl

theorem loadRecordsAux_cons (r : Record) (rest : List (List Char))
    (acc : List Record) (h : goodRecordB r = true) :
    loadRecordsAux (recordLine r :: rest) acc = loadRecordsAux rest (r :: acc) := by
  have h' := h
  rw [goodRecordB, Bool.and_eq_true, Bool.and_eq_true, Bool.and_eq_true] at h'
  obtain ⟨⟨⟨hid, hhash⟩, hsub⟩, hgrade⟩ := h'
  have hstrip : stripChars (recordLine r) = recordLine r := by
    rw [recordLine, line5_assoc]
    refine stripChars_eq_self _ ?_ ?_
    · rw [← line5_assoc]
      exact line_head_not_ws _ _ (fun c hc => edgeOkB_head
        ((Bool.and_eq_true _ _).mp hid).2 c hc)
    · exact line_last_not_ws _ _ (optIntByNone_all_numCh r.total_classes)
  have hsplit : splitCh '|' (recordLine r)
      = [r.student_id.data, r.subject_id.data, gradeField r.grade,
          optIntByNone r.attendance, optIntByNone r.total_classes] := by
    rw [recordLine]
    exact splitCh_five '|' _ _ _ _ _
      (fun c hc => (goodFieldB_noSep hid c hc).1)
      (fun c hc => (goodFieldB_noSep hsub c hc).1)
      (fun c hc => (numCh_ne (gradeField_all_numCh r.grade c hc)).1)
      (fun c hc => (numCh_ne (optIntByNone_all_numCh r.attendance c hc)).1)
      (fun c hc => (numCh_ne (optIntByNone_all_numCh r.total_classes c hc)).1)
  have hne : recordLine r ≠ [] := by
    rw [recordLine]
    simp
  have hnohash : (recordLine r).head? ≠ some '#' := by
    rw [recordLine]
    exact line_head_not_hash _ _ (noHashB_head hhash)
  simp only [loadRecordsAux, hstrip]
  rw [if_neg hne, if_neg hnohash]
  simp only [hsplit, List.head?_cons, List.drop_succ_cons, List.drop_zero,
    optNumField_gradeField r.grade hgrade, optNumField_optIntByNone,
    goodFieldB_strip hid, goodFieldB_strip hsub]

theorem loadRecordsAux_header (rest : List (List Char)) (acc : List Record) :
    loadRecordsAux (recordHeader :: rest) acc = loadRecordsAux rest acc := by
  simp only [loadRecordsAux]
  rw [if_neg (by decide), if_pos (by decide)]

theorem loadRecordsAux_map (l : List Record) :
    ∀ acc, (∀ r ∈ l, goodRecordB r = true) →
      loadRecordsAux (l.map recordLine) acc = acc.reverse ++ l := by
  induction l with
  | nil =>
    intro acc _
    simp [loadRecordsAux]
  | cons r rest ih =>
    intro acc h
    rw [List.map_cons, loadRecordsAux_cons r _ acc (h r (List.mem_cons_self r rest)),
      ih (r :: acc) (fun x hx => h x (List.mem_cons_of_mem r hx))]
    simp

theorem recordsRoundtrip (l : List Record) (h : ∀ r ∈ l, goodRecordB r = true) :
    loadRecords (recordsFileLines l) = l := by
  rw [loadRecords, recordsFileLines, loadRecordsAux_header, loadRecordsAux_map l [] h]
  rfl

theorem normTruthyInt_idem (x : Option Int) :
    normTruthyInt (normTruthyInt x) = normTruthyInt x := by
  rcases x with _ | v
  · rfl
  · rw [normTruthyInt]
    by_cases hv : v = 0
    · subst hv
      rfl
    · rw [if_neg hv, normTruthyInt, if_neg hv]

/-- Counterexample for C3: a subject whose `name` and `code` differ does
not round-trip to the same field values — the loader swaps the two
columns — even though no optional field is involved. -/
theorem claim_C3_counterexample :
    loadSubjects (subjectsFileLines [⟨"c1", "Algebra", "MA101", none⟩])
        = [⟨"c1", "MA101", "Algebra", none⟩] ∧
    loadSubjects (subjectsFileLines [⟨"c1", "Algebra", "MA101", none⟩])
        ≠ [⟨"c1", "Algebra", "MA101", none⟩] := by
  constructor <;> decide

/-- C3 (amended): for entities whose string fields contain no `|` or
newline, carry no leading/trailing whitespace, and whose id does not
start with `#`, save-then-load reproduces the list elementwise — exactly
for records; for students up to the collapse of `age = 0` to absent; for
subjects up to that collapse on `credits` and the loader's `name`/`code`
swap. Lengths are always preserved (`List.map` preserves length). -/
theorem claim_C3_roundtrip :
    (∀ l : List Student, (∀ s ∈ l, goodStudentB s = true) →
      loadStudents (studentsFileLines l) = l.map normStudent) ∧
    (∀ l : List Subject, (∀ s ∈ l, goodSubjectB s = true) →
      loadSubjects (subjectsFileLines l) = l.map loadedSubject) ∧
    (∀ l : List Record, (∀ r ∈ l, goodRecordB r = true) →
      loadRecords (recordsFileLines l) = l) :=
  ⟨studentsRoundtrip, subjectsRoundtrip, recordsRoundtrip⟩

unseal Rat.mul Rat.inv Rat.add Rat.sub in
/-- Witness for C3: concrete two-student, one-subject and one-record
collections round-trip as the amended claim states. -/
theorem claim_C3_witness :
    loadStudents (studentsFileLines [⟨"s1", "Ann Lee", "ann@mail.com", some 19⟩,
        ⟨"s2", "Bob", "bob@mail.com", none⟩])
      = ([⟨"s1", "Ann Lee", "ann@mail.com", some 19⟩,
          ⟨"s2", "Bob", "bob@mail.com", none⟩] : List Student).map normStudent ∧
    loadSubjects (subjectsFileLines [⟨"c1", "Algebra", "MA101", some 3⟩])
      = ([⟨"c1", "Algebra", "MA101", some 3⟩] : List Subject).map loadedSubject ∧
    loadRecords (recordsFileLines [⟨"s1", "c1", some (mkRat 171 2), some 3, some 10⟩])
      = [⟨"s1", "c1", some (mkRat 171 2), some 3, some 10⟩] :=
  ⟨claim_C3_roundtrip.1 _ (by decide), claim_C3_roundtrip.2.1 _ (by decide),
    claim_C3_roundtrip.2.2 _ (by decide)⟩

/-- Counterexample for C4: with `credits = 0` the claimed preservation of
`credits` fails — the writer's truthiness test turns `0` into an empty
column, which reloads as absent. -/
theorem claim_C4_counterexample :
    loadSubjects (subjectsFileLines [⟨"c1", "Algebra", "MA101", some 0⟩])
        = [⟨"c1", "MA101", "Algebra", none⟩] ∧
    loadSubjects (subjectsFileLines [⟨"c1", "Algebra", "MA101", some 0⟩])
        ≠ [⟨"c1", "MA101", "Algebra", some 0⟩] := by
  constructor <;> decide

/-- C4 (amended): for a well-formed subject, save-then-load yields a
subject with `name` and `code` swapped, `subject_id` preserved, and
`credits` preserved except that `0` collapses to absent; applying
save-then-load twice restores the original subject up to that same
`credits` normalization. -/
theorem claim_C4_swap (s : Subject) (h : goodSubjectB s = true) :
    loadSubjects (subjectsFileLines [s])
      = [{ subject_id := s.subject_id
           name := s.code
           code := s.name
           credits := normTruthyInt s.credits }] ∧
    loadSubjects (subjectsFileLines (loadSubjects (subjectsFileLines [s])))
      = [{ subject_id := s.subject_id
           name := s.name
           code := s.code
           credits := normTruthyInt s.credits }] := by
  have h1 : loadSubjects (subjectsFileLines [s]) = [loadedSubject s] := by
    rw [subjectsRoundtrip [s] (by
      intro x hx
      simp only [List.mem_singleton] at hx
      subst hx
      exact h)]
    rfl
  have h' := h
  rw [goodSubjectB, Bool.and_eq_true, Bool.and_eq_true, Bool.and_eq_true] at h'
  obtain ⟨⟨⟨hid, hhash⟩, hname⟩, hcode⟩ := h'
  have hgood : goodSubjectB (loadedSubject s) = true := by
    show (goodFieldB s.subject_id && noHashB s.subject_id &&
      goodFieldB s.code && goodFieldB s.name) = true
    simp [hid, hhash, hname, hcode]
  constructor
  · rw [h1]
    rfl
  · rw [h1, subjectsRoundtrip [loadedSubject s] (by
      intro x hx
      simp only [List.mem_singleton] at hx
      subst hx
      exact hgood)]
    simp only [List.map_cons, List.map_nil]
    rw [show loadedSubject (loadedSubject s)
      = { subject_id := s.subject_id
          name := s.name
          code := s.code
          credits := normTruthyInt (normTruthyInt s.credits) } from rfl,
      normTruthyInt_idem]

/-- Witness for C4: a concrete subject with distinct name and code and
nonzero credits; one cycle swaps the two fields, two cycles restore it. -/
theorem claim_C4_witness :
    loadSubjects (subjectsFileLines [⟨"c1", "Algebra", "MA101", some 3⟩])
      = [⟨"c1", "MA101", "Algebra", some 3⟩] ∧
    loadSubjects (subjectsFileLines (loadSubjects (subjectsFileLines
        [⟨"c1", "Algebra", "MA101", some 3⟩])))
      = [⟨"c1", "Algebra", "MA101", some 3⟩] :=
  claim_C4_swap ⟨"c1", "Algebra", "MA101", some 3⟩ (by decide)

/-- C10: the writers of `students.txt` and `subjects.txt` test the
optional numeric field for truthiness (`str(x) if x else ''`), so the
value `0` is serialized as an empty column and reloads as absent, while
the record writer compares against `None` and so preserves a grade
of `0` across the round-trip. -/
theorem claim_C10_zero_collapse :
    (∀ s : Student, goodStudentB s = true → s.age = some 0 →
      optIntTruthy s.age = [] ∧
        (loadStudents (studentsFileLines [s])).map Student.age = [none]) ∧
    (∀ c : Subject, goodSubjectB c = true → c.credits = some 0 →
      optIntTruthy c.credits = [] ∧
        (loadSubjects (subjectsFileLines [c])).map Subject.credits = [none]) ∧
    (∀ r : Record, goodRecordB r = true → r.grade = some 0 →
      gradeField r.grade ≠ [] ∧
        (loadRecords (recordsFileLines [r])).map Record.grade = [some 0]) := by
  refine ⟨?_, ?_, ?_⟩
  · intro s hgood hage
    refine ⟨by rw [hage]; rfl, ?_⟩
    rw [studentsRoundtrip [s] (by
      intro x hx
      simp only [List.mem_singleton] at hx
      subst hx
      exact hgood)]
    simp [normStudent, hage, normTruthyInt]
  · intro c hgood hcr
    refine ⟨by rw [hcr]; rfl, ?_⟩
    rw [subjectsRoundtrip [c] (by
      intro x hx
      simp only [List.mem_singleton] at hx
      subst hx
      exact hgood)]
    simp [loadedSubject, hcr, normTruthyInt]
  · intro r hgood hg
    refine ⟨by rw [hg]; exact ratChars_ne_nil 0, ?_⟩
    rw [recordsRoundtrip [r] (by
      intro x hx
      simp only [List.mem_singleton] at hx
      subst hx
      exact hgood)]
    simp [hg]

unseal Rat.mul Rat.inv Rat.add Rat.sub in
/-- Witness for C10: concrete entities with age 0, credits 0 and
grade 0. -/
theorem claim_C10_witness :
    (optIntTruthy (some 0) = [] ∧
      (loadStudents (studentsFileLines
        [⟨"s1", "Ann", "ann@mail.com", some 0⟩])).map Student.age = [none]) ∧
    ((loadRecords (recordsFileLines
        [⟨"s1", "c1", some 0, none, none⟩])).map Record.grade = [some 0]) :=
  ⟨claim_C10_zero_collapse.1 ⟨"s1", "Ann", "ann@mail.com", some 0⟩ (by decide) rfl,
    (claim_C10_zero_collapse.2.2 ⟨"s1", "c1", some 0, none, none⟩
      (by decide) rfl).2⟩
